import Mathlib

/-!
Verification development for the schema reference-extraction and
data-transformation engine of `moleculer-essentials`
(`src/validator/ref-extractor.ts`, `src/validator/transformers.ts`,
`src/validator/transformers/*`, and the `AjvValidator` wrapper).

Schemas and runtime data are the duck-typed JavaScript values the source
manipulates; they are embedded as the `JVal` inductive below.  Stateful
code (the ref registry, the `onNewRef` hook, in-place data mutation) is
embedded by explicit state passing; JavaScript exceptions are embedded as
`Except`; the unbounded recursion of the walkers is embedded with a fuel
parameter (`fuelExhausted` is a modelling artifact, distinct from every
error the source can raise).
-/

namespace MolEss

/-- JSON-like JavaScript values.  `date` and `oid` stand for the rich
in-memory `Date` and BSON `ObjectId` instances handled by the
transformers: a `Date` is identified by its ISO-8601 string, an
`ObjectId` by its 24-hex-character string. -/
inductive JVal where
  | null
  | bool (b : Bool)
  | num (n : Int)
  | str (s : String)
  | arr (elems : List JVal)
  | obj (fields : List (String × JVal))
  | date (iso : String)
  | oid (hex : String)

mutual

/-- Structural deep equality of values: the model of lodash `isEqual`
as the source applies it (schema content produced by the same walk, so
object keys appear in identical order). -/
def JVal.beq : JVal → JVal → Bool
  | .null, .null => true
  | .bool a, .bool b => a == b
  | .num a, .num b => a == b
  | .str a, .str b => a == b
  | .date a, .date b => a == b
  | .oid a, .oid b => a == b
  | .arr xs, .arr ys => beqList xs ys
  | .obj xs, .obj ys => beqFields xs ys
  | _, _ => false

def beqList : List JVal → List JVal → Bool
  | [], [] => true
  | x :: xs, y :: ys => JVal.beq x y && beqList xs ys
  | _, _ => false

def beqFields : List (String × JVal) → List (String × JVal) → Bool
  | [], [] => true
  | (k, v) :: xs, (l, w) :: ys => k == l && JVal.beq v w && beqFields xs ys
  | _, _ => false

end

instance : BEq JVal := ⟨JVal.beq⟩

/-- Property read, `v[k]`: `none` when the key is absent or the value is
not an object. -/
def JVal.get : JVal → String → Option JVal
  | .obj fs, k => fs.lookup k
  | _, _ => none

/-- JavaScript truthiness of a value. -/
def JVal.truthy : JVal → Bool
  | .null => false
  | .bool b => b
  | .num n => n != 0
  | .str s => s != ""
  | .arr _ => true
  | .obj _ => true
  | .date _ => true
  | .oid _ => true

/-- Truthiness of a property that may be absent (absent = `undefined`,
which is falsy). -/
def truthyOpt (v : Option JVal) : Bool :=
  match v with
  | some v => v.truthy
  | none => false

/-- Truthiness of an optional string (the `currentRef` parameter of the
extractor walk: `undefined` and `''` are falsy). -/
def strTruthy (s : Option String) : Bool :=
  match s with
  | some s => s != ""
  | none => false

/-- lodash `omit(v, ks)`: copy of the object without the listed keys
(lodash returns an empty object on non-objects). -/
def JVal.omitKeys : JVal → List String → JVal
  | .obj fs, ks => .obj (fs.filter (fun kv => !ks.contains kv.1))
  | _, _ => .obj []

/-- Assignment `fs[k] = v` on a field list: replaces in place when the
key exists, appends otherwise (JavaScript object key order). -/
def setFieldList (fs : List (String × JVal)) (k : String) (v : JVal) :
    List (String × JVal) :=
  if fs.any (fun kv => kv.1 == k) then
    fs.map (fun kv => if kv.1 == k then (k, v) else kv)
  else fs ++ [(k, v)]

/-- Assignment `o[k] = v` (no-op on non-objects; the source only assigns
onto objects). -/
def JVal.setField : JVal → String → JVal → JVal
  | .obj fs, k, v => .obj (setFieldList fs k v)
  | v, _, _ => v

/-! ### Reference extractor (`src/validator/ref-extractor.ts`) -/

/-- The reserved stable-identifier keyword, `SCHEMA_REF_NAME`. -/
def SCHEMA_REF_NAME : String := "$id"

/-- The reserved coerce-array keyword, `COERCE_ARRAY_ATTRIBUTE`. -/
def COERCE_ARRAY_ATTRIBUTE : String := "x-coerce-array"

/-- The stable identifier carried by a node, when present
(`curr[SCHEMA_REF_NAME]`, which the schema type constrains to be a
string; a falsy empty string does not count as named). -/
def refNameOf (v : JVal) : Option String :=
  match v.get SCHEMA_REF_NAME with
  | some (.str s) => if s == "" then none else some s
  | _ => none

/-- Errors the extractor can raise.  `fuelExhausted` is the fuel
artifact of the embedding. -/
inductive ExtractErr where
  | unresolvableSelfRef
  | registrationConflict (name : String)
  | fuelExhausted
deriving DecidableEq

/-- State carried by `RefExtractor`: the `refs` map (`none` = key
absent, `some none` = the `null` placeholder, `some (some s)` = the
registered content) and the log of `onNewRef` hook invocations. -/
structure ExtractState where
  refs : String → Option (Option JVal)
  newRefCalls : List (String × JVal)

def emptyExtractState : ExtractState :=
  { refs := fun _ => none, newRefCalls := [] }

/-- `refs.set name v` -/
def ExtractState.setRef (st : ExtractState) (name : String)
    (v : Option JVal) : ExtractState :=
  { st with refs := fun k => if k == name then some v else st.refs k }

/-- The value a named node is replaced by in the returned tree
(`ref-extractor.ts` lines 87-99): the registered content itself when the
root is skipped, a union with the null type when the node is nullable,
and a bare reference otherwise. -/
def refResult (skipRoot root : Bool) (curr : JVal) (ref name : String)
    (st : ExtractState) : JVal :=
  if skipRoot && root then ((st.refs name).getD none).getD .null
  else if truthyOpt (curr.get "nullable") then
    .obj [("oneOf", .arr [.obj [("$ref", .str ref)],
                          .obj [("type", .str "null")]])]
  else .obj [("$ref", .str ref)]

mutual

/-- The recursive `walk` of `RefExtractor.extract`, with the
`refReplacer` strategy and the `skipRoot` flag as parameters.  Fuel is
consumed by every recursive call (per node and per list element), so a
fuel larger than the schema size behaves as the unbounded JavaScript
recursion. -/
def walk (replacer : String → String) (skipRoot : Bool) :
    Nat → ExtractState → JVal → Option String → Bool →
    Except ExtractErr (JVal × ExtractState)
  | 0, _, _, _, _ => .error .fuelExhausted
  | fuel + 1, st, curr, currentRef, root =>
    if truthyOpt (curr.get "$ref") then
      if curr.get "$ref" == some (.str "#") then
        if strTruthy currentRef then
          .ok (.obj [("$ref", .str (currentRef.getD ""))], st)
        else .error .unresolvableSelfRef
      else .ok (curr, st)
    else
      match refNameOf curr with
      | some name =>
        let ref := replacer name
        let st₁ := if (st.refs name).isSome then st else st.setRef name none
        match walk replacer skipRoot fuel st₁
            (curr.omitKeys [SCHEMA_REF_NAME, "nullable"]) (some ref) false with
        | .error e => .error e
        | .ok (newSchema, st₂) =>
          match st₂.refs name with
          | some none =>
            let st₃ : ExtractState :=
              { refs := fun k => if k == name then some (some newSchema)
                                 else st₂.refs k,
                newRefCalls := st₂.newRefCalls ++ [(name, newSchema)] }
            .ok (refResult skipRoot root curr ref name st₃, st₃)
          | some (some registered) =>
            if JVal.beq newSchema registered then
              .ok (refResult skipRoot root curr ref name st₂, st₂)
            else .error (.registrationConflict name)
          | none => .error (.registrationConflict name)
      | none =>
        match curr.get "type" with
        | some (.str t) =>
          if t ∈ ["integer", "number", "string", "boolean"] then .ok (curr, st)
          else walkComposite replacer skipRoot fuel st curr currentRef
        | _ => walkComposite replacer skipRoot fuel st curr currentRef
termination_by structural fuel _ _ _ _ => fuel

/-- The non-leaf tail of `walk` (lines 106-137 of `ref-extractor.ts`):
copy the node, then rewrite `items` / `properties` /
`additionalProperties` (`walkStage1`), then `oneOf` / `allOf` / `anyOf`
(`walkUnion`), in source order. -/
def walkComposite (replacer : String → String) (skipRoot : Bool) :
    Nat → ExtractState → JVal → Option String →
    Except ExtractErr (JVal × ExtractState)
  | 0, _, _, _ => .error .fuelExhausted
  | fuel + 1, st, curr, currentRef => do
    let (s₁, st₁) ← walkStage1 replacer skipRoot fuel st curr currentRef
    let (s₂, st₂) ←
      walkUnion replacer skipRoot "oneOf" fuel st₁ s₁ curr currentRef
    let (s₃, st₃) ←
      walkUnion replacer skipRoot "allOf" fuel st₂ s₂ curr currentRef
    walkUnion replacer skipRoot "anyOf" fuel st₃ s₃ curr currentRef
termination_by structural fuel _ _ _ => fuel

/-- Lines 108-126: the `items` rewrite of array nodes, and the
`properties` / `additionalProperties` rewrites of object nodes, on the
`{ ...curr }` copy. -/
def walkStage1 (replacer : String → String) (skipRoot : Bool) :
    Nat → ExtractState → JVal → Option String →
    Except ExtractErr (JVal × ExtractState)
  | 0, _, _, _ => .error .fuelExhausted
  | fuel + 1, st, curr, currentRef =>
    if curr.get "type" == some (.str "array")
        && truthyOpt (curr.get "items") then
      match curr.get "items" with
      | some items => do
        let (items', st') ← walk replacer skipRoot fuel st items currentRef false
        pure (curr.setField "items" items', st')
      | none => pure (curr, st)
    else if curr.get "type" == some (.str "object") then do
      let (s₁, st₁) ←
        match curr.get "properties" with
        | some (.obj pfs) => do
          let (pfs', st') ←
            walkFields replacer skipRoot fuel st pfs currentRef
          pure (curr.setField "properties" (.obj pfs'), st')
        | _ => pure (curr, st)
      match curr.get "additionalProperties" with
      | some ap =>
        if ap.truthy && ap != .bool true then do
          let (ap', st') ← walk replacer skipRoot fuel st₁ ap currentRef false
          pure (s₁.setField "additionalProperties" ap', st')
        else pure (s₁, st₁)
      | none => pure (s₁, st₁)
    else pure (curr, st)
termination_by structural fuel _ _ _ => fuel

/-- One `Array.isArray(newSchema.f) && newSchema.f = newSchema.f.map(
walk)` rewrite (`f` is `oneOf`, `allOf` or `anyOf`). -/
def walkUnion (replacer : String → String) (skipRoot : Bool)
    (f : String) :
    Nat → ExtractState → JVal → JVal → Option String →
    Except ExtractErr (JVal × ExtractState)
  | 0, _, _, _, _ => .error .fuelExhausted
  | fuel + 1, st, s, curr, currentRef =>
    match curr.get f with
    | some (.arr xs) => do
      let (xs', st') ← walkList replacer skipRoot fuel st xs currentRef
      pure (s.setField f (.arr xs'), st')
    | _ => pure (s, st)
termination_by structural fuel _ _ _ _ => fuel

/-- Walk every property value of an object schema, threading state. -/
def walkFields (replacer : String → String) (skipRoot : Bool) :
    Nat → ExtractState → List (String × JVal) → Option String →
    Except ExtractErr (List (String × JVal) × ExtractState)
  | 0, _, _, _ => .error .fuelExhausted
  | fuel + 1, st, fs, currentRef =>
    match fs with
    | [] => .ok ([], st)
    | (k, v) :: rest => do
      let (v', st₁) ← walk replacer skipRoot fuel st v currentRef false
      let (rest', st₂) ← walkFields replacer skipRoot fuel st₁ rest currentRef
      .ok ((k, v') :: rest', st₂)
termination_by structural fuel _ _ _ => fuel

/-- Walk every alternative of a `oneOf`/`allOf`/`anyOf` list, threading
state. -/
def walkList (replacer : String → String) (skipRoot : Bool) :
    Nat → ExtractState → List JVal → Option String →
    Except ExtractErr (List JVal × ExtractState)
  | 0, _, _, _ => .error .fuelExhausted
  | fuel + 1, st, xs, currentRef =>
    match xs with
    | [] => .ok ([], st)
    | v :: rest => do
      let (v', st₁) ← walk replacer skipRoot fuel st v currentRef false
      let (rest', st₂) ← walkList replacer skipRoot fuel st₁ rest currentRef
      .ok (v' :: rest', st₂)
termination_by structural fuel _ _ _ => fuel

end

/-- `RefExtractor.extract(schemaToExtract, initialRef, skipRoot)`:
the root call is `walk(schemaToExtract, initialRef, true)`. -/
def extract (replacer : String → String) (fuel : Nat) (st : ExtractState)
    (schema : JVal) (initialRef : Option String) (skipRoot : Bool) :
    Except ExtractErr (JVal × ExtractState) :=
  walk replacer skipRoot fuel st schema initialRef true

/-- The `AjvExtractor` address strategy. -/
def ajvReplacer (ref : String) : String :=
  "https://schemas.wavy.fr/" ++ ref

/-- The address strategy of the test extractor in
`ref-extractor.spec.ts` (used for concrete evaluations). -/
def testReplacer (ref : String) : String :=
  "my-test/" ++ ref

/-! ### Leaf transform compiler
(`src/validator/transformers/leaf-transformer-base.ts`) -/

/-- A path-program step (`TransformField` entries). -/
inductive Step where
  | this
  | access (key : String)
  | loop
  | select (subTransforms : List (List Step))

/-- `schema.oneOf || schema.anyOf || schema.allOf`: the first union
keyword carrying an array (union keywords are arrays when present). -/
def unionAlts (schema : JVal) : Option (List JVal) :=
  match schema.get "oneOf" with
  | some (.arr xs) => some xs
  | _ =>
    match schema.get "anyOf" with
    | some (.arr xs) => some xs
    | _ =>
      match schema.get "allOf" with
      | some (.arr xs) => some xs
      | _ => none

/-- `Object.entries` of a `properties` value. -/
def entriesOf (v : JVal) : List (String × JVal) :=
  match v with
  | .obj fs => fs
  | _ => []

mutual

/-- `LeafTransformerBase.findTransformsInternal`, parameterized by the
concrete transformer's `isTransformableLeaf` predicate. -/
def findTransformsInternal (isLeaf : JVal → Bool) :
    Nat → JVal → List Step → List (List Step)
  | 0, _, _ => []
  | fuel + 1, schema, currentField =>
    if isLeaf schema then [currentField ++ [Step.this]]
    else if schema.get "type" == some (.str "object")
        && truthyOpt (schema.get "properties") then
      ftFields isLeaf fuel (entriesOf ((schema.get "properties").getD .null))
        currentField
    else if schema.get "type" == some (.str "array")
        && truthyOpt (schema.get "items") then
      findTransformsInternal isLeaf fuel ((schema.get "items").getD .null)
        (currentField ++ [Step.loop])
    else
      match unionAlts schema with
      | some alts =>
        [currentField ++ [Step.select (ftList isLeaf fuel alts)]]
      | none => []
termination_by structural fuel _ _ => fuel

/-- The `flatMap` over the properties of an object schema: each
property recurses on a copy of the current path extended with an
`access` step. -/
def ftFields (isLeaf : JVal → Bool) :
    Nat → List (String × JVal) → List Step → List (List Step)
  | 0, _, _ => []
  | fuel + 1, fs, currentField =>
    match fs with
    | [] => []
    | (k, v) :: rest =>
      findTransformsInternal isLeaf fuel v (currentField ++ [Step.access k])
        ++ ftFields isLeaf fuel rest currentField
termination_by structural fuel _ _ => fuel

/-- The `flatMap` over union alternatives: each alternative starts a
fresh empty sub-path. -/
def ftList (isLeaf : JVal → Bool) : Nat → List JVal → List (List Step)
  | 0, _ => []
  | fuel + 1, alts =>
    match alts with
    | [] => []
    | v :: rest =>
      findTransformsInternal isLeaf fuel v [] ++ ftList isLeaf fuel rest
termination_by structural fuel _ => fuel

end

/-- `LeafTransformerBase.findTransforms`. -/
def findTransforms (isLeaf : JVal → Bool) (fuel : Nat) (schema : JVal) :
    List (List Step) :=
  findTransformsInternal isLeaf fuel schema []

/-! ### The three concrete transformers
(`transformers/date.ts`, `transformers/object-id.ts`,
`transformers/coerce-array.ts`) -/

/-- `DateTransformer.isTransformableLeaf`:
`schema.type === 'string' && transformFormats.includes(schema.format)`
with `transformFormats = ['date-time']`. -/
def dateIsTransformableLeaf (schema : JVal) : Bool :=
  schema.get "type" == some (.str "string")
    && schema.get "format" == some (.str "date-time")

/-- `ObjectIdTransformer.isTransformableLeaf`:
`schema.type === 'string' && schema.format === 'object-id'`. -/
def objectIdIsTransformableLeaf (schema : JVal) : Bool :=
  schema.get "type" == some (.str "string")
    && schema.get "format" == some (.str "object-id")

/-- `CoerceArrayTransformer.isTransformableLeaf`:
`schema.type === 'array' && schema[COERCE_ARRAY_ATTRIBUTE]`. -/
def coerceArrayIsTransformableLeaf (schema : JVal) : Bool :=
  schema.get "type" == some (.str "array")
    && truthyOpt (schema.get COERCE_ARRAY_ATTRIBUTE)

/-- `DateTransformer.beforeTransformer`: a `Date` instance becomes its
ISO string, everything else passes through. -/
def dateBeforeTransformer : JVal → JVal
  | .date iso => .str iso
  | v => v

/-- `DateTransformer.afterTransformer`: a string that `parseISO`
accepts becomes a `Date`; the validity test of the external `date-fns`
library is the `isoValid` parameter. -/
def dateAfterTransformer (isoValid : String → Bool) : JVal → JVal
  | .str s => if isoValid s then .date s else .str s
  | v => v

/-- `ObjectIdTransformer.beforeTransformer`: an `ObjectId` instance
becomes its hex string. -/
def objectIdBeforeTransformer : JVal → JVal
  | .oid s => .str s
  | v => v

/-- 24-hex-character test of `ObjectIdTransformer.afterTransformer`. -/
def isHex24 (s : String) : Bool :=
  s.length == 24 && s.toList.all (fun c =>
    c.isDigit || ("abcdefABCDEF".toList.contains c))

/-- `ObjectIdTransformer.afterTransformer`. -/
def objectIdAfterTransformer : JVal → JVal
  | .str s => if isHex24 s then .oid s else .str s
  | v => v

/-- `CoerceArrayTransformer.beforeTransformer`: arrays and `null` pass
through, everything else is wrapped into a one-element array. -/
def coerceArrayBeforeTransformer : JVal → JVal
  | .arr xs => .arr xs
  | .null => .null
  | v => .arr [v]

/-- `CoerceArrayTransformer.afterTransformer` is the identity. -/
def coerceArrayAfterTransformer : JVal → JVal := fun v => v

/-- A concrete transformer: leaf predicate plus before/after value
conversions (`Transformer` in `types.ts`). -/
structure Transformer where
  isTransformableLeaf : JVal → Bool
  beforeTransformer : JVal → JVal
  afterTransformer : JVal → JVal

/-- The fixed transformer list of `transformers.ts` (registration
order: date, object-id, coerce-array). -/
def transformers (isoValid : String → Bool) : List Transformer :=
  [⟨dateIsTransformableLeaf, dateBeforeTransformer,
    dateAfterTransformer isoValid⟩,
   ⟨objectIdIsTransformableLeaf, objectIdBeforeTransformer,
    objectIdAfterTransformer⟩,
   ⟨coerceArrayIsTransformableLeaf, coerceArrayBeforeTransformer,
    coerceArrayAfterTransformer⟩]

/-! ### Transform interpreter (`applyTransform` in `transformers.ts`)

The JavaScript function mutates `parent[dataKey]` in place; the
embedding passes the parent value explicitly and returns its updated
form.  `none` models a thrown `TypeError`/unknown-step error (reading
`transformField[index]` past the end of the program, or the `default`
switch branch); it is proved unreachable for compiler-produced
programs. -/

/-- A JavaScript property key: a string (object field) or an index
(array slot). -/
inductive JKey where
  | str (s : String)
  | idx (n : Nat)

/-- `parent[dataKey]` (also the own-property test: `none` = absent). -/
def getKey : JVal → JKey → Option JVal
  | .obj fs, .str s => fs.lookup s
  | .arr xs, .idx n => xs.get? n
  | _, _ => none

/-- `parent[dataKey] = v` (only used where the key is present). -/
def setKey : JVal → JKey → JVal → JVal
  | .obj fs, .str s, v => .obj (setFieldList fs s v)
  | .arr xs, .idx n, v => .arr (xs.set n v)
  | p, _, _ => p

/-- lodash `isPlainObject` of a possibly-absent value (`Date` and
`ObjectId` instances, arrays and primitives are not plain objects). -/
def isPlainObjectOpt : Option JVal → Bool
  | some (.obj _) => true
  | _ => false

/-- lodash `isArray` of a possibly-absent value. -/
def isArrayOpt : Option JVal → Bool
  | some (.arr _) => true
  | _ => false

/-- The throwing outcomes of the interpreter: `badProgram` models the
two `throw`ing situations of `applyTransform` (reading a step past the
end of the program, and the `default` unknown-step branch);
`outOfFuel` is the fuel artifact of the embedding. -/
inductive InterpErr where
  | badProgram
  | outOfFuel
deriving DecidableEq

/-- The element list of an array value (used where the value is known
to be an array). -/
def elemsOf : JVal → List JVal
  | .arr xs => xs
  | _ => []

mutual

/-- `applyTransform(parent, dataKey, transformer, transformField,
index)`, with the program suffix `transformField.drop index` passed as
a list. -/
def applyTransform (tr : JVal → JVal) :
    Nat → JVal → JKey → List Step → Except InterpErr JVal
  | 0, _, _, _ => .error .outOfFuel
  | fuel + 1, parent, dataKey, steps =>
    match steps with
    | [] => .error .badProgram
    | step :: rest =>
      match step with
      | .this =>
        match parent with
        | .obj _ | .arr _ =>
          match getKey parent dataKey with
          | some v => .ok (setKey parent dataKey (tr v))
          | none => .ok parent
        | _ => .ok parent
      | .access key =>
        match getKey parent dataKey with
        | some (.obj cfs) =>
          (applyTransform tr fuel (.obj cfs) (.str key) rest).map
            (fun child => setKey parent dataKey child)
        | _ => .ok parent
      | .select subs => applySelect tr fuel parent dataKey subs
      | .loop =>
        match getKey parent dataKey with
        | some (.arr xs) =>
          (applyElems tr fuel xs.length xs 0 rest).map
            (fun xs => setKey parent dataKey (.arr xs))
        | _ => .ok parent
termination_by structural fuel _ _ _ => fuel

/-- The `select` branch: every sub-program is applied in order against
the same cursor. -/
def applySelect (tr : JVal → JVal) :
    Nat → JVal → JKey → List (List Step) → Except InterpErr JVal
  | 0, _, _, _ => .error .outOfFuel
  | fuel + 1, parent, dataKey, subs =>
    match subs with
    | [] => .ok parent
    | sub :: more =>
      match applyTransform tr fuel parent dataKey sub with
      | .ok parent' => applySelect tr fuel parent' dataKey more
      | .error e => .error e
termination_by structural fuel _ _ _ => fuel

/-- The `loop` branch: `for (let i = 0; i < cast.length; i += 1)`,
applying the remaining steps at each index in ascending order.  The
`count` argument bounds the remaining iterations (the element updates
preserve the array and its length, so `count = cast.length` iterations
from index 0 replay the JavaScript loop exactly; the `elemsOf` read is
only ever applied to an array). -/
def applyElems (tr : JVal → JVal) :
    Nat → Nat → List JVal → Nat → List Step → Except InterpErr (List JVal)
  | 0, _, _, _, _ => .error .outOfFuel
  | fuel + 1, count, xs, i, rest =>
    match count with
    | 0 => .ok xs
    | count + 1 =>
      if i < xs.length then
        match applyTransform tr fuel (.arr xs) (.idx i) rest with
        | .ok v => applyElems tr fuel count (elemsOf v) (i + 1) rest
        | .error e => .error e
      else .ok xs
termination_by structural fuel _ _ _ _ => fuel

end

/-- Number of `onNewRef` hook invocations recorded for a given
identifier. -/
def countCalls (name : String) (calls : List (String × JVal)) : Nat :=
  (calls.filter (fun c => c.1 == name)).length

/-- Well-formed path programs: exactly the programs on which the
interpreter can never reach the throwing branches (`this` ends the
program; `access`/`loop` continue into a well-formed remainder; every
sub-program of a `select` is well-formed).  `findTransforms` only
produces such programs. -/
inductive ProgWF : List Step → Prop where
  | this (rest : List Step) : ProgWF (Step.this :: rest)
  | access (k : String) (rest : List Step) :
      ProgWF rest → ProgWF (Step.access k :: rest)
  | loop (rest : List Step) : ProgWF rest → ProgWF (Step.loop :: rest)
  | select (subs : List (List Step)) (rest : List Step) :
      (∀ sub ∈ subs, ProgWF sub) → ProgWF (Step.select subs :: rest)

/-- Steps that only descend (the shape of every prefix `findTransforms`
passes down its recursion). -/
def stepDescends : Step → Bool
  | .access _ => true
  | .loop => true
  | _ => false

mutual

/-- The effect of a program on the value at the cursor, when the cursor
key is present: the value-level reading of `applyTransform` used to
state that a `loop` visits every element independently.  It mirrors
`applyTransform` case by case (`this` transforms the value, `access`
re-enters `applyTransform` on the child object, `loop` re-enters
`applyElems` on the elements, `select` folds the sub-programs over the
value). -/
def applyCore (tr : JVal → JVal) :
    Nat → List Step → JVal → Except InterpErr JVal
  | 0, _, _ => .error .outOfFuel
  | fuel + 1, steps, v =>
    match steps with
    | [] => .error .badProgram
    | step :: rest =>
      match step with
      | .this => .ok (tr v)
      | .access key =>
        match v with
        | .obj cfs => applyTransform tr fuel (.obj cfs) (.str key) rest
        | _ => .ok v
      | .select subs => applyCoreSelect tr fuel subs v
      | .loop =>
        match v with
        | .arr ys => (applyElems tr fuel ys.length ys 0 rest).map JVal.arr
        | _ => .ok v
termination_by structural fuel _ _ => fuel

/-- Value-level reading of `applySelect`. -/
def applyCoreSelect (tr : JVal → JVal) :
    Nat → List (List Step) → JVal → Except InterpErr JVal
  | 0, _, _ => .error .outOfFuel
  | fuel + 1, subs, v =>
    match subs with
    | [] => .ok v
    | sub :: more =>
      match applyCore tr fuel sub v with
      | .ok v' => applyCoreSelect tr fuel more v'
      | .error e => .error e
termination_by structural fuel _ _ => fuel

end

/-! ### Transform pipeline and schema-load checks (`transformers.ts`) -/

/-- `loadTransforms` for a single transformer (the body of the
`forEach` in `transformers.ts` lines 130-139): discover the programs
and fail with the `Unsupported transforms found` error when any
discovered program is empty. -/
inductive TransformErr where
  | unsupportedTransforms
deriving DecidableEq

def loadTransformsFor (isLeaf : JVal → Bool) (fuel : Nat) (schema : JVal) :
    Except TransformErr (List (List Step)) :=
  let transforms := findTransforms isLeaf fuel schema
  if transforms.any (fun t => t.isEmpty) then
    .error .unsupportedTransforms
  else .ok transforms

/-- `loadTransforms(schema)`: every registered transformer discovers
and checks its programs (date, object-id, coerce-array, in order). -/
def loadTransforms (fuel : Nat) (schema : JVal) :
    Except TransformErr (List (List (List Step))) := do
  let d ← loadTransformsFor dateIsTransformableLeaf fuel schema
  let o ← loadTransformsFor objectIdIsTransformableLeaf fuel schema
  let c ← loadTransformsFor coerceArrayIsTransformableLeaf fuel schema
  pure [d, o, c]

/-- One `applyTransform({ data }, 'data', ...)` call of
`applyTransforms`: the value is wrapped in a temporary `{ data }`
object and the program applied at its `data` key.

Caveat mirrored from the source: because the wrapper is a temporary
object, a program whose very first step is `this` reassigns
`wrapper.data` and the caller never observes the new value; the
pipeline theorems therefore quantify over programs that descend first
(`access`/`loop` head), for which this wrapper semantics and the
caller-visible JavaScript semantics coincide. -/
def applyTopField (tr : JVal → JVal) (fuel : Nat) (data : JVal)
    (field : List Step) : Except InterpErr JVal :=
  (applyTransform tr fuel (.obj [("data", data)]) (.str "data") field).map
    (fun w => (w.get "data").getD .null)

/-- `applyTransforms` for one transformer: each discovered program is
applied in order against a fresh wrapper. -/
def applyFields (tr : JVal → JVal) (fuel : Nat) (fields : List (List Step))
    (data : JVal) : Except InterpErr JVal :=
  fields.foldlM (fun d field => applyTopField tr fuel d field) data

/-- `applyBeforeTransforms(schema, data)`: all three transformers'
before-conversions, in registration order. -/
def applyBeforeTransforms (fuel : Nat) (schema : JVal) (data : JVal) :
    Except InterpErr JVal := do
  let d₁ ← applyFields dateBeforeTransformer fuel
    (findTransforms dateIsTransformableLeaf fuel schema) data
  let d₂ ← applyFields objectIdBeforeTransformer fuel
    (findTransforms objectIdIsTransformableLeaf fuel schema) d₁
  applyFields coerceArrayBeforeTransformer fuel
    (findTransforms coerceArrayIsTransformableLeaf fuel schema) d₂

/-- `applyAfterTransforms(schema, data)`. -/
def applyAfterTransforms (isoValid : String → Bool) (fuel : Nat)
    (schema : JVal) (data : JVal) : Except InterpErr JVal := do
  let d₁ ← applyFields (dateAfterTransformer isoValid) fuel
    (findTransforms dateIsTransformableLeaf fuel schema) data
  let d₂ ← applyFields objectIdAfterTransformer fuel
    (findTransforms objectIdIsTransformableLeaf fuel schema) d₁
  applyFields coerceArrayAfterTransformer fuel
    (findTransforms coerceArrayIsTransformableLeaf fuel schema) d₂

/-! ### Validation engine wrapper (`AjvValidator` in
`ajv-validator.ts`) -/

/-- Errors of `AjvValidator.compile`. -/
inductive CompileErr where
  | validatorModeNotFound (mode : String)
  | unsupportedTransforms
  | extractFailed (e : ExtractErr)
deriving DecidableEq

/-- The state of an `AjvValidator` instance: the configured modes, the
default mode, the per-mode extractor state, and the `compiledFns`
cache.  The `WeakMap` cache is keyed by schema object identity; in the
embedding a cache entry is keyed by the schema value and holds the
`refSchema` captured by the compiled closure. -/
structure AjvValidatorState where
  modes : List String
  defaultMode : String
  extractorStates : String → ExtractState
  compiledFns : List (JVal × JVal)

/-- `compiledFns.has(schema)` / `compiledFns.get(schema)`. -/
def lookupCompiled (cache : List (JVal × JVal)) (schema : JVal) :
    Option JVal :=
  match cache with
  | [] => none
  | (s, fn) :: rest =>
    if JVal.beq s schema then some fn else lookupCompiled rest schema

/-- `AjvValidator.compile(schema, mode)`: cached-function short
circuit, mode lookup, `loadTransforms`, extraction, caching.  The
returned `JVal` is the `refSchema` captured by the compiled validation
closure. -/
def AjvValidator.compile (fuel : Nat) (vm : AjvValidatorState)
    (schema : JVal) (mode : Option String) :
    Except CompileErr (JVal × AjvValidatorState) :=
  match lookupCompiled vm.compiledFns schema with
  | some fn => .ok (fn, vm)
  | none =>
    let m := mode.getD vm.defaultMode
    if vm.modes.contains m then
      match loadTransforms fuel schema with
      | .error _ => .error .unsupportedTransforms
      | .ok _ =>
        match extract ajvReplacer fuel (vm.extractorStates m) schema
            none false with
        | .error e => .error (.extractFailed e)
        | .ok (refSchema, st') =>
          .ok (refSchema,
            { vm with
              extractorStates := fun k =>
                if k == m then st' else vm.extractorStates k,
              compiledFns := vm.compiledFns ++ [(schema, refSchema)] })
    else .error (.validatorModeNotFound m)

/-- Errors raised by a compiled validation function. -/
inductive ValidateErr where
  | validationError
  | interpreterCrash
deriving DecidableEq

/-- The behavior of the compiled validation closure (`fn` in
`AjvValidator.compile`, part of `ajv-validator.ts`): before-transforms
unless disabled, structural validation by the external Ajv validator
(the `ajvValid` parameter), `ValidationError` on failure, then
after-transforms.  The returned `JVal` is the state of the
caller-supplied `params` when the call returns or throws. -/
def validateFnRun (isoValid : String → Bool) (ajvValid : JVal → Bool)
    (fuel : Nat) (schema : JVal) (disableTransforms : Bool)
    (params : JVal) : JVal × Except ValidateErr Bool :=
  match (if disableTransforms then .ok params
         else applyBeforeTransforms fuel schema params) with
  | .error _ => (params, .error .interpreterCrash)
  | .ok p₁ =>
    if ajvValid p₁ then
      match (if disableTransforms then .ok p₁
             else applyAfterTransforms isoValid fuel schema p₁) with
      | .error _ => (p₁, .error .interpreterCrash)
      | .ok p₂ => (p₂, .ok true)
    else (p₁, .error .validationError)

/-! ### Heap-level embedding of the reference extractor

The non-mutation claim is about the JavaScript heap: `extract` must
never write to any object reachable from the caller's schema.  To state
it, the walk is re-embedded over an explicit heap: objects and arrays
live in heap cells addressed by index, `{ ...curr }`, `omit` and the
object literals of the source allocate fresh cells, and the source's
assignments (`newSchema.items = ...`, `newSchema.properties[key] =
...`) become writes to the cell they target.  The frame theorem then
says that every cell that existed before the call is bytewise unchanged
after it. -/

/-- Immediate JavaScript values: primitives or a reference to a heap
cell. -/
inductive HVal where
  | null
  | bool (b : Bool)
  | num (n : Int)
  | str (s : String)
  | ref (addr : Nat)
deriving DecidableEq

/-- Heap cells: objects and arrays. -/
inductive HNode where
  | obj (fields : List (String × HVal))
  | arr (elems : List HVal)
deriving DecidableEq

/-- A heap is a list of cells, addressed by index; allocation appends. -/
abbrev Heap := List HNode

def hAlloc (h : Heap) (n : HNode) : Heap × Nat :=
  (h ++ [n], h.length)

/-- The fields of the object cell a value points to (`{ ...v }` reads
these; empty for primitives, mirroring a spread of a non-object). -/
def fieldsAt (h : Heap) (v : HVal) : List (String × HVal) :=
  match v with
  | .ref a =>
    match h.get? a with
    | some (.obj fs) => fs
    | _ => []
  | _ => []

/-- `v[k]` through the heap. -/
def hField (h : Heap) (v : HVal) (k : String) : Option HVal :=
  (fieldsAt h v).lookup k

/-- JavaScript truthiness of an immediate value (references are always
objects, hence truthy). -/
def hTruthy : HVal → Bool
  | .null => false
  | .bool b => b
  | .num n => n != 0
  | .str s => s != ""
  | .ref _ => true

def hTruthyOpt (v : Option HVal) : Bool :=
  match v with
  | some v => hTruthy v
  | none => false

/-- Assignment into a field list (replace in place, else append). -/
def setFieldListH (fs : List (String × HVal)) (k : String) (v : HVal) :
    List (String × HVal) :=
  if fs.any (fun kv => kv.1 == k) then
    fs.map (fun kv => if kv.1 == k then (k, v) else kv)
  else fs ++ [(k, v)]

/-- `target[k] = v` where `target` is the object cell at address `a`
(the source only assigns onto objects it just allocated). -/
def hSetField (h : Heap) (a : Nat) (k : String) (v : HVal) : Heap :=
  match h.get? a with
  | some (.obj fs) => h.set a (.obj (setFieldListH fs k v))
  | _ => h

/-- The stable identifier of a heap node. -/
def refNameOfH (h : Heap) (v : HVal) : Option String :=
  match hField h v SCHEMA_REF_NAME with
  | some (.str s) => if s == "" then none else some s
  | _ => none

/-- State of the heap-level extractor: the heap plus the `refs`
registry (holding JavaScript references). -/
structure HState where
  heap : Heap
  refs : String → Option (Option HVal)

def HState.setRef (σ : HState) (name : String) (v : Option HVal) :
    HState :=
  { σ with refs := fun k => if k == name then some v else σ.refs k }

mutual

/-- Heap-level lodash `isEqual` (deep structural comparison through the
heap, fuel-bounded). -/
def hBeq (h : Heap) : Nat → HVal → HVal → Bool
  | 0, _, _ => false
  | fuel + 1, a, b =>
    match a, b with
    | .null, .null => true
    | .bool x, .bool y => x == y
    | .num x, .num y => x == y
    | .str x, .str y => x == y
    | .ref x, .ref y =>
      match h.get? x, h.get? y with
      | some (.obj fs), some (.obj gs) => hBeqFields h fuel fs gs
      | some (.arr xs), some (.arr ys) => hBeqList h fuel xs ys
      | _, _ => false
    | _, _ => false
termination_by structural fuel _ _ => fuel

def hBeqFields (h : Heap) :
    Nat → List (String × HVal) → List (String × HVal) → Bool
  | 0, _, _ => false
  | fuel + 1, fs, gs =>
    match fs, gs with
    | [], [] => true
    | (k, v) :: fs, (l, w) :: gs =>
      k == l && hBeq h fuel v w && hBeqFields h fuel fs gs
    | _, _ => false
termination_by structural fuel _ _ => fuel

def hBeqList (h : Heap) : Nat → List HVal → List HVal → Bool
  | 0, _, _ => false
  | fuel + 1, xs, ys =>
    match xs, ys with
    | [], [] => true
    | x :: xs, y :: ys => hBeq h fuel x y && hBeqList h fuel xs ys
    | _, _ => false
termination_by structural fuel _ _ => fuel

end

/-- The replacement value for a named node (heap level): the
nullable-union and bare-reference replacements allocate the object
literals of `ref-extractor.ts` lines 93-99. -/
def hRefResult (skipRoot root nullable : Bool) (h : Heap) (ref : String)
    (regVal : HVal) : HVal × Heap :=
  if skipRoot && root then (regVal, h)
  else if nullable then
    let (h₁, r₁) := hAlloc h (.obj [("$ref", .str ref)])
    let (h₂, r₂) := hAlloc h₁ (.obj [("type", .str "null")])
    let (h₃, ar) := hAlloc h₂ (.arr [.ref r₁, .ref r₂])
    let (h₄, o) := hAlloc h₃ (.obj [("oneOf", .ref ar)])
    (.ref o, h₄)
  else
    let (h₁, a) := hAlloc h (.obj [("$ref", .str ref)])
    (.ref a, h₁)

mutual

/-- Heap-level `walk`.  Writes go only to cells allocated by the same
call (`{ ...curr }`, `omit`, the literal objects); the caller's cells
are only read. -/
def walkH (replacer : String → String) (skipRoot : Bool) :
    Nat → HState → HVal → Option String → Bool →
    Except ExtractErr (HVal × HState)
  | 0, _, _, _, _ => .error .fuelExhausted
  | fuel + 1, σ, curr, currentRef, root =>
    if hTruthyOpt (hField σ.heap curr "$ref") then
      if hField σ.heap curr "$ref" == some (.str "#") then
        if strTruthy currentRef then
          let (h', a) :=
            hAlloc σ.heap (.obj [("$ref", .str (currentRef.getD ""))])
          .ok (.ref a, { σ with heap := h' })
        else .error .unresolvableSelfRef
      else .ok (curr, σ)
    else
      match refNameOfH σ.heap curr with
      | some name =>
        let ref := replacer name
        let σ₁ := if (σ.refs name).isSome then σ else σ.setRef name none
        let (h₁, oa) := hAlloc σ₁.heap
          (.obj ((fieldsAt σ₁.heap curr).filter
            (fun kv => !([SCHEMA_REF_NAME, "nullable"]).contains kv.1)))
        match walkH replacer skipRoot fuel { σ₁ with heap := h₁ }
            (.ref oa) (some ref) false with
        | .error e => .error e
        | .ok (newSchema, σ₂) =>
          let nullable := hTruthyOpt (hField σ₂.heap curr "nullable")
          match σ₂.refs name with
          | some none =>
            let σ₃ := σ₂.setRef name (some newSchema)
            let (v, h') := hRefResult skipRoot root nullable σ₃.heap ref
              (((σ₃.refs name).getD none).getD .null)
            .ok (v, { σ₃ with heap := h' })
          | some (some registered) =>
            if hBeq σ₂.heap fuel newSchema registered then
              let (v, h') := hRefResult skipRoot root nullable σ₂.heap ref
                (((σ₂.refs name).getD none).getD .null)
              .ok (v, { σ₂ with heap := h' })
            else .error (.registrationConflict name)
          | none => .error (.registrationConflict name)
      | none =>
        match hField σ.heap curr "type" with
        | some (.str t) =>
          if t ∈ ["integer", "number", "string", "boolean"] then
            .ok (curr, σ)
          else walkCompositeH replacer skipRoot fuel σ curr currentRef
        | _ => walkCompositeH replacer skipRoot fuel σ curr currentRef
termination_by structural fuel _ _ _ _ => fuel

/-- Heap-level composite tail: allocate the `{ ...curr }` copy, then
rewrite `items` / `properties` / `additionalProperties`
(`walkStage1H`) and `oneOf` / `allOf` / `anyOf` (`walkUnionH`) by
writing onto the copy. -/
def walkCompositeH (replacer : String → String) (skipRoot : Bool) :
    Nat → HState → HVal → Option String →
    Except ExtractErr (HVal × HState)
  | 0, _, _, _ => .error .fuelExhausted
  | fuel + 1, σ, curr, currentRef => do
    let (h₀, na) := hAlloc σ.heap (.obj (fieldsAt σ.heap curr))
    let σA ← walkStage1H replacer skipRoot fuel { σ with heap := h₀ }
      na currentRef
    let σB ← walkUnionH replacer skipRoot fuel σA na "oneOf" currentRef
    let σC ← walkUnionH replacer skipRoot fuel σB na "allOf" currentRef
    let σD ← walkUnionH replacer skipRoot fuel σC na "anyOf" currentRef
    pure (.ref na, σD)
termination_by structural fuel _ _ _ => fuel

/-- Heap-level `items` / `properties` / `additionalProperties`
rewrites, on the copy at address `na`. -/
def walkStage1H (replacer : String → String) (skipRoot : Bool) :
    Nat → HState → Nat → Option String → Except ExtractErr HState
  | 0, _, _, _ => .error .fuelExhausted
  | fuel + 1, σ, na, currentRef =>
    if hField σ.heap (.ref na) "type" == some (.str "array")
        && hTruthyOpt (hField σ.heap (.ref na) "items") then
      match hField σ.heap (.ref na) "items" with
      | some items => do
        let (items', σ') ← walkH replacer skipRoot fuel σ items
          currentRef false
        pure { σ' with heap := hSetField σ'.heap na "items" items' }
      | none => pure σ
    else if hField σ.heap (.ref na) "type" == some (.str "object") then do
      let σP ←
        if hTruthyOpt (hField σ.heap (.ref na) "properties") then do
          let pfs := fieldsAt σ.heap
            ((hField σ.heap (.ref na) "properties").getD .null)
          let (h₁, pa) := hAlloc σ.heap (.obj pfs)
          let σ₁ : HState := { σ with
            heap := hSetField h₁ na "properties" (.ref pa) }
          walkFieldsH replacer skipRoot fuel σ₁ pa pfs currentRef
        else pure σ
      match hField σP.heap (.ref na) "additionalProperties" with
      | some ap =>
        if hTruthy ap && ap != HVal.bool true then do
          let (ap', σ') ← walkH replacer skipRoot fuel σP ap
            currentRef false
          pure { σ' with
            heap := hSetField σ'.heap na "additionalProperties" ap' }
        else pure σP
      | none => pure σP
    else pure σ
termination_by structural fuel _ _ _ => fuel

/-- One `Array.isArray(newSchema.f) && newSchema.f = newSchema.f.map(
walk)` rewrite: walk the elements, allocate the mapped array, write it
onto the copy. -/
def walkUnionH (replacer : String → String) (skipRoot : Bool) :
    Nat → HState → Nat → String → Option String →
    Except ExtractErr HState
  | 0, _, _, _, _ => .error .fuelExhausted
  | fuel + 1, σ, na, f, currentRef =>
    match hField σ.heap (.ref na) f with
    | some (.ref aa) =>
      match σ.heap.get? aa with
      | some (.arr xs) => do
        let (xs', σ') ← walkListH replacer skipRoot fuel σ xs currentRef
        let (h₁, na') := hAlloc σ'.heap (.arr xs')
        pure { σ' with heap := hSetField h₁ na f (.ref na') }
      | _ => pure σ
    | _ => pure σ
termination_by structural fuel _ _ _ _ => fuel

/-- Heap-level walk of property entries, writing each result onto the
properties copy at address `pa`. -/
def walkFieldsH (replacer : String → String) (skipRoot : Bool) :
    Nat → HState → Nat → List (String × HVal) → Option String →
    Except ExtractErr HState
  | 0, _, _, _, _ => .error .fuelExhausted
  | fuel + 1, σ, pa, fs, currentRef =>
    match fs with
    | [] => .ok σ
    | (k, v) :: rest => do
      let (v', σ₁) ← walkH replacer skipRoot fuel σ v currentRef false
      let σ₂ : HState := { σ₁ with heap := hSetField σ₁.heap pa k v' }
      walkFieldsH replacer skipRoot fuel σ₂ pa rest currentRef
termination_by structural fuel _ _ _ _ => fuel

/-- Heap-level walk of a union-alternative list. -/
def walkListH (replacer : String → String) (skipRoot : Bool) :
    Nat → HState → List HVal → Option String →
    Except ExtractErr (List HVal × HState)
  | 0, _, _, _ => .error .fuelExhausted
  | fuel + 1, σ, xs, currentRef =>
    match xs with
    | [] => .ok ([], σ)
    | v :: rest => do
      let (v', σ₁) ← walkH replacer skipRoot fuel σ v currentRef false
      let (rest', σ₂) ← walkListH replacer skipRoot fuel σ₁ rest currentRef
      .ok (v' :: rest', σ₂)
termination_by structural fuel _ _ _ => fuel

end

/-- Heap-level `RefExtractor.extract`. -/
def extractH (replacer : String → String) (fuel : Nat) (σ : HState)
    (schema : HVal) (initialRef : Option String) (skipRoot : Bool) :
    Except ExtractErr (HVal × HState) :=
  walkH replacer skipRoot fuel σ schema initialRef true

/-! ### Concrete schemas and states from the repository's test suite
(used by witnesses and counterexamples) -/

/-- The schema of the `known issue with nested arrays` test in
`validator.spec.ts`: an array of arrays marked coercible at the outer
level. -/
def knownIssueSchema : JVal :=
  .obj [("type", .str "object"), ("required", .arr []),
        ("additionalProperties", .bool false),
        ("properties", .obj [("values", .obj
          [("type", .str "array"),
           (COERCE_ARRAY_ATTRIBUTE, .bool true),
           ("items", .obj [("type", .str "array"),
                           ("items", .obj [("type", .str "string")])])])])]

/-- An object schema with one date-time property. -/
def dateFieldSchema : JVal :=
  .obj [("type", .str "object"), ("required", .arr []),
        ("additionalProperties", .bool false),
        ("properties", .obj [("date", .obj
          [("type", .str "string"), ("format", .str "date-time"),
           ("nullable", .bool true)])])]

/-- The named self-referential schema of the spec's self-reference
test: `{id:"Node", properties:{next:{$ref:"#"}}}`. -/
def nodeSelfRefSchema : JVal :=
  .obj [(SCHEMA_REF_NAME, .str "Node"), ("type", .str "object"),
        ("properties", .obj [("next", .obj [("$ref", .str "#")])])]

/-- The `multi-level self-refs` schema of `ref-extractor.spec.ts`: the
self-reference resolves to the nearest enclosing named ancestor
(`SchemaB`), not to the initial identifier. -/
def multiLevelSchema : JVal :=
  .obj [("type", .str "object"), ("additionalProperties", .bool false),
        ("required", .arr []),
        ("properties", .obj [("child", .obj
          [(SCHEMA_REF_NAME, .str "SchemaB"), ("type", .str "object"),
           ("additionalProperties", .bool false), ("required", .arr []),
           ("properties", .obj [("b", .obj [("$ref", .str "#")])])])])]

/-- The nullable named schema of the `extract a simple schema
(nullable)` test. -/
def nullableNamedSchema : JVal :=
  .obj [("type", .str "object"), ("additionalProperties", .bool false),
        ("required", .arr []),
        ("properties", .obj [("a", .obj
          [("type", .str "string"), (SCHEMA_REF_NAME, .str "MyString"),
           ("minLength", .num 5), ("nullable", .bool true)])])]

/-- A schema with the same identifier `A` on two structurally identical
nodes. -/
def dupIdenticalSchema : JVal :=
  .obj [("type", .str "object"),
        ("properties", .obj
          [("p", .obj [(SCHEMA_REF_NAME, .str "A"), ("type", .str "string")]),
           ("q", .obj [(SCHEMA_REF_NAME, .str "A"), ("type", .str "string")])])]

/-- A schema with the same identifier `A` on two structurally different
nodes (the spec's conflict example: `{type:"string"}` then
`{type:"number"}`). -/
def dupConflictSchema : JVal :=
  .obj [("type", .str "object"),
        ("properties", .obj
          [("p", .obj [(SCHEMA_REF_NAME, .str "A"), ("type", .str "string")]),
           ("q", .obj [(SCHEMA_REF_NAME, .str "A"), ("type", .str "number")])])]

/-- A minimal leaf schema. -/
def tinySchema : JVal := .obj [("type", .str "string")]

/-- A fresh validator configured with one mode, `default`. -/
def defaultVm : AjvValidatorState :=
  { modes := ["default"], defaultMode := "default",
    extractorStates := fun _ => emptyExtractState, compiledFns := [] }

/-- An extractor state in which identifier `A` is registered with
content `{type: "string"}` and the hook has been called once for it. -/
def registeredStateA : ExtractState :=
  { refs := fun k => if k == "A"
      then some (some (.obj [("type", .str "string")])) else none,
    newRefCalls := [("A", .obj [("type", .str "string")])] }

/-- A concrete three-cell heap holding the schema
`{type:"object", properties:{a:{$ref:"#"}}}` (cell 2 is the root). -/
def demoState : HState :=
  { heap := [.obj [("$ref", .str "#")],
             .obj [("a", .ref 0)],
             .obj [("type", .str "object"), ("properties", .ref 1)]],
    refs := fun _ => none }

/-- The heap after extracting `demoState`: the three input cells are
bytewise unchanged and all rewrites live in the freshly allocated cells
3-5. -/
def demoFinalState : HState :=
  { heap := [.obj [("$ref", .str "#")],
             .obj [("a", .ref 0)],
             .obj [("type", .str "object"), ("properties", .ref 1)],
             .obj [("type", .str "object"), ("properties", .ref 4)],
             .obj [("a", .ref 5)],
             .obj [("$ref", .str "init")]],
    refs := fun _ => none }

/-- Frame predicate on heaps: the heap has at least `N` cells and the
first `N` cells are unchanged. -/
def HeapFrame (N : Nat) (h h' : Heap) : Prop :=
  N ≤ h'.length ∧ ∀ a, a < N → h'.get? a = h.get? a

/-- A state transition preserves an existing registration of `I`: the
registered content stays `R` and no further `onNewRef` call for `I` is
logged. -/
def PreservesReg (I : String) (R : JVal) (st st' : ExtractState) : Prop :=
  st.refs I = some (some R) →
    st'.refs I = some (some R) ∧
    countCalls I st'.newRefCalls = countCalls I st.newRefCalls

/-! ## Helper lemmas -/

mutual

theorem JVal.beq_refl : (v : JVal) → JVal.beq v v = true
  | .null => rfl
  | .bool b => by simp [JVal.beq]
  | .num n => by simp [JVal.beq]
  | .str s => by simp [JVal.beq]
  | .date s => by simp [JVal.beq]
  | .oid s => by simp [JVal.beq]
  | .arr xs => by simpa [JVal.beq] using beqList_refl xs
  | .obj fs => by simpa [JVal.beq] using beqFields_refl fs
termination_by v => sizeOf v

theorem beqList_refl : (xs : List JVal) → beqList xs xs = true
  | [] => rfl
  | x :: xs => by simp [beqList, JVal.beq_refl x, beqList_refl xs]
termination_by xs => sizeOf xs

theorem beqFields_refl : (fs : List (String × JVal)) → beqFields fs fs = true
  | [] => rfl
  | (k, v) :: fs => by simp [beqFields, JVal.beq_refl v, beqFields_refl fs]
termination_by fs => sizeOf fs

end

/-- Structurally different values are `beq`-different (contrapositive
of reflexivity). -/
theorem ne_of_beq_false {a b : JVal} (h : JVal.beq a b = false) : a ≠ b := by
  intro hab
  rw [hab, JVal.beq_refl b] at h
  exact absurd h (by simp)

theorem countCalls_append (I n : String) (x : JVal)
    (c : List (String × JVal)) :
    countCalls I (c ++ [(n, x)])
      = countCalls I c + (if n == I then 1 else 0) := by
  simp only [countCalls, List.filter_append]
  split <;> simp_all

theorem PreservesReg.rfl {I R st} : PreservesReg I R st st :=
  fun h => ⟨h, Eq.refl _⟩

theorem PreservesReg.trans {I R st₁ st₂ st₃}
    (h₁ : PreservesReg I R st₁ st₂) (h₂ : PreservesReg I R st₂ st₃) :
    PreservesReg I R st₁ st₃ := by
  intro h
  obtain ⟨ha, hb⟩ := h₁ h
  obtain ⟨hc, hd⟩ := h₂ ha
  exact ⟨hc, hd.trans hb⟩

/-- Once an identifier is registered, no later step of the walk
changes its registered content or calls the registration hook for it
again (simultaneously for the four mutually recursive walkers). -/
theorem walk_preservesReg (replacer : String → String) (skipRoot : Bool)
    (I : String) (R : JVal) : ∀ fuel : Nat,
    (∀ st curr cref root v st',
      walk replacer skipRoot fuel st curr cref root = .ok (v, st') →
      PreservesReg I R st st') ∧
    (∀ st curr cref v st',
      walkComposite replacer skipRoot fuel st curr cref = .ok (v, st') →
      PreservesReg I R st st') ∧
    (∀ st curr cref v st',
      walkStage1 replacer skipRoot fuel st curr cref = .ok (v, st') →
      PreservesReg I R st st') ∧
    (∀ f st s curr cref v st',
      walkUnion replacer skipRoot f fuel st s curr cref = .ok (v, st') →
      PreservesReg I R st st') ∧
    (∀ st fs cref v st',
      walkFields replacer skipRoot fuel st fs cref = .ok (v, st') →
      PreservesReg I R st st') ∧
    (∀ st xs cref v st',
      walkList replacer skipRoot fuel st xs cref = .ok (v, st') →
      PreservesReg I R st st') := by
  intro fuel
  induction fuel with
  | zero =>
    refine ⟨?_, ?_, ?_, ?_, ?_, ?_⟩ <;> intros <;>
      simp_all [walk, walkComposite, walkStage1, walkUnion, walkFields,
        walkList]
  | succ n ih =>
    obtain ⟨ihW, ihC, ihS, ihU, ihF, ihL⟩ := ih
    refine ⟨?_, ?_, ?_, ?_, ?_, ?_⟩
    · intro st curr cref root v st' h
      simp only [walk] at h
      split at h
      · split at h
        · split at h
          · cases h
            exact PreservesReg.rfl
          · cases h
        · cases h
          exact PreservesReg.rfl
      · split at h
        case h_1 name hname =>
          split at h
          case h_1 e heq => cases h
          case h_2 newSchema st₂ heq =>
            have hst₁ : PreservesReg I R st
                (if (st.refs name).isSome then st
                 else st.setRef name none) := by
              intro hr
              split
              · exact ⟨hr, Eq.refl _⟩
              case isFalse hf =>
                by_cases hni : name = I
                · rw [hni, hr] at hf
                  simp at hf
                · refine ⟨?_, Eq.refl _⟩
                  simp only [ExtractState.setRef]
                  have : (I == name) = false := by
                    simp only [beq_eq_false_iff_ne, ne_eq]
                    exact fun he => hni he.symm
                  simp [this, hr]
            have h₂ : PreservesReg I R st st₂ :=
              hst₁.trans (ihW _ _ _ _ _ _ heq)
            split at h
            case h_1 hreg =>
              cases h
              intro hr
              obtain ⟨ha, hb⟩ := h₂ hr
              by_cases hni : name = I
              · rw [hni] at hreg
                rw [hreg] at ha
                cases ha
              · have hIname : (I == name) = false := by
                  simp only [beq_eq_false_iff_ne, ne_eq]
                  exact fun he => hni he.symm
                have hnameI : (name == I) = false := by
                  simp only [beq_eq_false_iff_ne, ne_eq]
                  exact hni
                constructor
                · simpa [hIname] using ha
                · rw [countCalls_append, hnameI]
                  simpa using hb
            case h_2 registered hreg =>
              split at h
              · cases h
                exact h₂
              · cases h
            case h_3 hreg => cases h
        case h_2 hname =>
          split at h
          case h_1 t ht =>
            split at h
            · cases h
              exact PreservesReg.rfl
            · exact ihC _ _ _ _ _ h
          case h_2 ht => exact ihC _ _ _ _ _ h
    · intro st curr cref v st' h
      simp only [walkComposite, bind, Except.bind] at h
      split at h
      case h_1 => cases h
      case h_2 p₁ h₁ =>
        obtain ⟨s₁, st₁⟩ := p₁
        split at h
        case h_1 => cases h
        case h_2 p₂ h₂ =>
          obtain ⟨s₂, st₂⟩ := p₂
          split at h
          case h_1 => cases h
          case h_2 p₃ h₃ =>
            obtain ⟨s₃, st₃⟩ := p₃
            exact ((((ihS _ _ _ _ _ h₁).trans
              (ihU _ _ _ _ _ _ _ h₂)).trans
              (ihU _ _ _ _ _ _ _ h₃)).trans
              (ihU _ _ _ _ _ _ _ h))
    · intro st curr cref v st' h
      simp only [walkStage1, bind, Except.bind, pure, Except.pure] at h
      split at h
      · split at h
        case h_1 items hitems =>
          split at h
          case h_1 => cases h
          case h_2 p h₁ =>
            cases h
            exact ihW _ _ _ _ _ _ h₁
        case h_2 => cases h; exact PreservesReg.rfl
      · split at h
        · split at h
          case h_1 pfs hpfs =>
            split at h
            case h_1 => cases h
            case h_2 q hq =>
              have hp : PreservesReg I R st q.2 := ihF _ _ _ _ _ hq
              split at h
              case h_1 ap hap =>
                split at h
                · split at h
                  case h_1 => cases h
                  case h_2 r hr =>
                    cases h
                    exact hp.trans (ihW _ _ _ _ _ _ hr)
                · cases h
                  exact hp
              case h_2 => cases h; exact hp
          case h_2 hnp =>
            split at h
            case h_1 ap hap =>
              split at h
              · split at h
                case h_1 => cases h
                case h_2 r hr =>
                  cases h
                  exact ihW _ _ _ _ _ _ hr
              · cases h
                exact PreservesReg.rfl
            case h_2 => cases h; exact PreservesReg.rfl
        · cases h
          exact PreservesReg.rfl
    · intro f st s curr cref v st' h
      simp only [walkUnion, bind, Except.bind, pure, Except.pure] at h
      split at h
      case h_1 xs hxs =>
        split at h
        case h_1 => cases h
        case h_2 q hq =>
          cases h
          exact ihL _ _ _ _ _ hq
      case h_2 => cases h; exact PreservesReg.rfl
    · intro st fs cref v st' h
      simp only [walkFields, bind, Except.bind] at h
      split at h
      · cases h
        exact PreservesReg.rfl
      · split at h
        case h_1 => cases h
        case h_2 p₁ h₁ =>
          obtain ⟨v₁, st₁⟩ := p₁
          split at h
          case h_1 => cases h
          case h_2 p₂ h₂ =>
            cases h
            exact (ihW _ _ _ _ _ _ h₁).trans (ihF _ _ _ _ _ h₂)
    · intro st xs cref v st' h
      simp only [walkList, bind, Except.bind] at h
      split at h
      · cases h
        exact PreservesReg.rfl
      · split at h
        case h_1 => cases h
        case h_2 p₁ h₁ =>
          obtain ⟨v₁, st₁⟩ := p₁
          split at h
          case h_1 => cases h
          case h_2 p₂ h₂ =>
            cases h
            exact (ihW _ _ _ _ _ _ h₁).trans (ihL _ _ _ _ _ h₂)

/-! ## Claim C1 — idempotent registration and conflict detection -/

/-- C1: re-processing a node named `I` while `I` is registered with
content `R` is a no-op when the stripped content walks to something
structurally equal to `R` (first conjunct: the node is replaced by its
reference replacement, the registry still maps `I` to `R`, and no
further `onNewRef` call for `I` is logged — in particular the hook runs
at most once for `I`), and raises the registration-conflict error when
the content differs (second conjunct); third and fourth conjuncts: a
schema carrying `A` twice with identical content extracts with exactly
one registration and one hook call, and with different content
(`{type:"string"}` then `{type:"number"}`) fails with the conflict
error on `A`. -/
theorem claim_C1 :
    (∀ (replacer : String → String) (skipRoot : Bool) (fuel : Nat)
        (st : ExtractState) (curr : JVal) (cref : Option String)
        (root : Bool) (I : String) (N : JVal) (st₂ : ExtractState)
        (R : JVal),
      truthyOpt (curr.get "$ref") = false →
      refNameOf curr = some I →
      st.refs I = some (some R) →
      walk replacer skipRoot fuel st
          (curr.omitKeys [SCHEMA_REF_NAME, "nullable"])
          (some (replacer I)) false = .ok (N, st₂) →
      JVal.beq N R = true →
      walk replacer skipRoot (fuel + 1) st curr cref root
          = .ok (refResult skipRoot root curr (replacer I) I st₂, st₂) ∧
        st₂.refs I = some (some R) ∧
        countCalls I st₂.newRefCalls = countCalls I st.newRefCalls) ∧
    (∀ (replacer : String → String) (skipRoot : Bool) (fuel : Nat)
        (st : ExtractState) (curr : JVal) (cref : Option String)
        (root : Bool) (I : String) (N : JVal) (st₂ : ExtractState)
        (R : JVal),
      truthyOpt (curr.get "$ref") = false →
      refNameOf curr = some I →
      st.refs I = some (some R) →
      walk replacer skipRoot fuel st
          (curr.omitKeys [SCHEMA_REF_NAME, "nullable"])
          (some (replacer I)) false = .ok (N, st₂) →
      JVal.beq N R = false →
      walk replacer skipRoot (fuel + 1) st curr cref root
          = .error (.registrationConflict I)) ∧
    ((extract testReplacer 20 emptyExtractState dupIdenticalSchema
        none false).map
          (fun p => (p.2.refs "A", countCalls "A" p.2.newRefCalls))
      = .ok (some (some (.obj [("type", .str "string")])), 1)) ∧
    (extract testReplacer 20 emptyExtractState dupConflictSchema
        none false
      = .error (.registrationConflict "A")) := by
  refine ⟨?_, ?_, rfl, rfl⟩
  · intro replacer skipRoot fuel st curr cref root I N st₂ R
      href hname hst hin heq
    have hpres := ((walk_preservesReg replacer skipRoot I R fuel).1
      _ _ _ _ _ _ hin) hst
    obtain ⟨ha, hb⟩ := hpres
    refine ⟨?_, ha, hb⟩
    simp [walk, href, hname, hst, hin, ha, heq]
  · intro replacer skipRoot fuel st curr cref root I N st₂ R
      href hname hst hin heq
    have hpres := ((walk_preservesReg replacer skipRoot I R fuel).1
      _ _ _ _ _ _ hin) hst
    obtain ⟨ha, _⟩ := hpres
    simp [walk, href, hname, hst, hin, ha, heq]

/-- C1, witness: re-processing the node named `A` against a state in
which `A` is registered: identical content is a no-op with the hook
count still 1, different content raises the conflict. -/
theorem claim_C1_witness :
    walk testReplacer false 6 registeredStateA
      (.obj [(SCHEMA_REF_NAME, .str "A"), ("type", .str "string")])
      none false
      = .ok (.obj [("$ref", .str "my-test/A")], registeredStateA) ∧
    countCalls "A" registeredStateA.newRefCalls = 1 ∧
    walk testReplacer false 6 registeredStateA
      (.obj [(SCHEMA_REF_NAME, .str "A"), ("type", .str "number")])
      none false
      = .error (.registrationConflict "A") :=
  ⟨((claim_C1).1 testReplacer false 5 registeredStateA
      (.obj [(SCHEMA_REF_NAME, .str "A"), ("type", .str "string")])
      none false "A" (.obj [("type", .str "string")]) registeredStateA
      (.obj [("type", .str "string")])
      rfl rfl rfl rfl rfl).1,
   rfl,
   (claim_C1).2.1 testReplacer false 5 registeredStateA
      (.obj [(SCHEMA_REF_NAME, .str "A"), ("type", .str "number")])
      none false "A" (.obj [("type", .str "number")]) registeredStateA
      (.obj [("type", .str "string")])
      rfl rfl rfl rfl rfl⟩

/-! ## Claim C4 — the extractor never mutates the caller's schema -/

theorem HeapFrame.refl (N : Nat) (h : Heap) (hN : N ≤ h.length) :
    HeapFrame N h h :=
  ⟨hN, fun _ _ => Eq.refl _⟩

theorem HeapFrame.seq {N : Nat} {h₁ h₂ h₃ : Heap}
    (a : HeapFrame N h₁ h₂) (b : HeapFrame N h₂ h₃) :
    HeapFrame N h₁ h₃ :=
  ⟨b.1, fun x hx => (b.2 x hx).trans (a.2 x hx)⟩

theorem heapFrame_alloc (N : Nat) (h : Heap) (n : HNode)
    (hN : N ≤ h.length) : HeapFrame N h (h ++ [n]) := by
  refine ⟨by simp; omega, fun a ha => ?_⟩
  exact List.get?_append (lt_of_lt_of_le ha hN)

theorem heapFrame_hSetField (N : Nat) (h : Heap) (a : Nat) (k : String)
    (v : HVal) (hN : N ≤ h.length) (ha : N ≤ a) :
    HeapFrame N h (hSetField h a k v) := by
  unfold hSetField
  split
  · refine ⟨by simp [List.length_set]; omega, fun b hb => ?_⟩
    exact List.get?_set_ne _ _ (by omega)
  · exact HeapFrame.refl N h hN

theorem hRefResult_frame (skipRoot root nullable : Bool) (h : Heap)
    (ref : String) (rv : HVal) (N : Nat) (hN : N ≤ h.length) :
    HeapFrame N h (hRefResult skipRoot root nullable h ref rv).2 := by
  unfold hRefResult
  split
  · exact HeapFrame.refl N h hN
  · split
    · simp only [hAlloc]
      refine ⟨by simp; omega, fun a ha => ?_⟩
      have h1 : a < h.length := lt_of_lt_of_le ha hN
      rw [List.get?_append (by simp; omega),
        List.get?_append (by simp; omega),
        List.get?_append (by simp; omega),
        List.get?_append h1]
    · exact heapFrame_alloc N h _ hN

/-- The heap-level walk only allocates fresh cells and writes to cells
it allocated itself: every cell that existed on entry is unchanged on
exit (simultaneously for the six mutually recursive walkers; the
address arguments of `walkStage1H`, `walkUnionH` and `walkFieldsH`
point to cells allocated by their caller, hence the `N ≤ na` / `N ≤
pa` hypotheses). -/
theorem walkH_frame (replacer : String → String) (skipRoot : Bool) :
    ∀ fuel : Nat,
    (∀ N σ curr cref root v σ', N ≤ σ.heap.length →
      walkH replacer skipRoot fuel σ curr cref root = .ok (v, σ') →
      HeapFrame N σ.heap σ'.heap) ∧
    (∀ N σ curr cref v σ', N ≤ σ.heap.length →
      walkCompositeH replacer skipRoot fuel σ curr cref = .ok (v, σ') →
      HeapFrame N σ.heap σ'.heap) ∧
    (∀ N σ na cref σ', N ≤ σ.heap.length → N ≤ na →
      walkStage1H replacer skipRoot fuel σ na cref = .ok σ' →
      HeapFrame N σ.heap σ'.heap) ∧
    (∀ N σ na f cref σ', N ≤ σ.heap.length → N ≤ na →
      walkUnionH replacer skipRoot fuel σ na f cref = .ok σ' →
      HeapFrame N σ.heap σ'.heap) ∧
    (∀ N σ pa fs cref σ', N ≤ σ.heap.length → N ≤ pa →
      walkFieldsH replacer skipRoot fuel σ pa fs cref = .ok σ' →
      HeapFrame N σ.heap σ'.heap) ∧
    (∀ N σ xs cref v σ', N ≤ σ.heap.length →
      walkListH replacer skipRoot fuel σ xs cref = .ok (v, σ') →
      HeapFrame N σ.heap σ'.heap) := by
  intro fuel
  induction fuel with
  | zero =>
    refine ⟨?_, ?_, ?_, ?_, ?_, ?_⟩ <;> intros <;>
      simp_all [walkH, walkCompositeH, walkStage1H, walkUnionH,
        walkFieldsH, walkListH]
  | succ n ih =>
    obtain ⟨ihW, ihC, ihS, ihU, ihF, ihL⟩ := ih
    refine ⟨?_, ?_, ?_, ?_, ?_, ?_⟩
    · intro N σ curr cref root v σ' hN h
      simp only [walkH] at h
      split at h
      · split at h
        · split at h
          · simp only [hAlloc] at h
            cases h
            exact heapFrame_alloc N σ.heap _ hN
          · cases h
        · cases h
          exact HeapFrame.refl N σ.heap hN
      · split at h
        case h_1 name hname =>
          simp only [hAlloc] at h
          generalize hσ₁ : (if (σ.refs name).isSome then σ
              else σ.setRef name none) = σ₁ at h
          have hheap : σ₁.heap = σ.heap := by
            rw [← hσ₁]; split <;> rfl
          rw [hheap] at h
          split at h
          case h_1 => cases h
          case h_2 newSchema σ₂ heq =>
            have fA : HeapFrame N σ.heap σ₂.heap :=
              (heapFrame_alloc N σ.heap _ hN).seq
                (ihW N _ _ _ _ _ _ (by simp; omega) heq)
            split at h
            case h_1 hreg =>
              cases h
              exact fA.seq
                (hRefResult_frame _ _ _ σ₂.heap _ _ N fA.1)
            case h_2 registered hreg =>
              split at h
              · cases h
                exact fA.seq
                  (hRefResult_frame _ _ _ σ₂.heap _ _ N fA.1)
              · cases h
            case h_3 hreg => cases h
        case h_2 hname =>
          split at h
          case h_1 t ht =>
            split at h
            · cases h
              exact HeapFrame.refl N σ.heap hN
            · exact ihC N _ _ _ _ _ hN h
          case h_2 ht => exact ihC N _ _ _ _ _ hN h
    · intro N σ curr cref v σ' hN h
      simp only [walkCompositeH, bind, Except.bind, hAlloc, pure,
        Except.pure] at h
      split at h
      case h_1 => cases h
      case h_2 σA hA =>
        have f1 : HeapFrame N σ.heap σA.heap :=
          (heapFrame_alloc N σ.heap _ hN).seq
            (ihS N _ _ _ _ (by simp; omega) (by simpa using hN) hA)
        split at h
        case h_1 => cases h
        case h_2 σB hB =>
          have f2 := ihU N σA _ _ _ _ f1.1 (by simpa using hN) hB
          split at h
          case h_1 => cases h
          case h_2 σC hC =>
            have f3 := ihU N σB _ _ _ _ (f1.seq f2).1
              (by simpa using hN) hC
            split at h
            case h_1 => cases h
            case h_2 σD hD =>
              have f4 := ihU N σC _ _ _ _ ((f1.seq f2).seq f3).1
                (by simpa using hN) hD
              cases h
              exact ((f1.seq f2).seq f3).seq f4
    · intro N σ na cref σ' hN hna h
      simp only [walkStage1H, bind, Except.bind, pure, Except.pure,
        hAlloc] at h
      split at h
      · split at h
        case h_1 items hitems =>
          split at h
          case h_1 => cases h
          case h_2 p hp =>
            cases h
            have f1 := ihW N _ _ _ _ _ _ hN hp
            exact f1.seq (heapFrame_hSetField N _ na _ _ f1.1 hna)
        case h_2 => cases h; exact HeapFrame.refl N σ.heap hN
      · split at h
        · split at h
          · split at h
            case h_1 => cases h
            case h_2 σP hP =>
              have fa : HeapFrame N σ.heap
                  (hSetField (σ.heap ++
                      [HNode.obj (fieldsAt σ.heap
                        ((hField σ.heap (.ref na) "properties").getD
                          .null))])
                    na "properties" (.ref σ.heap.length)) :=
                (heapFrame_alloc N σ.heap _ hN).seq
                  (heapFrame_hSetField N _ na _ _ (by simp; omega) hna)
              have fP : HeapFrame N σ.heap σP.heap :=
                fa.seq (ihF N _ _ _ _ _ fa.1 hN hP)
              split at h
              case h_1 ap hap =>
                split at h
                · split at h
                  case h_1 => cases h
                  case h_2 q hq =>
                    cases h
                    have fq := ihW N _ _ _ _ _ _ fP.1 hq
                    exact (fP.seq fq).seq
                      (heapFrame_hSetField N _ na _ _ fq.1 hna)
                · cases h
                  exact fP
              case h_2 => cases h; exact fP
          · have fP : HeapFrame N σ.heap σ.heap :=
              HeapFrame.refl N σ.heap hN
            split at h
            case h_1 ap hap =>
              split at h
              · split at h
                case h_1 => cases h
                case h_2 q hq =>
                  cases h
                  have fq := ihW N _ _ _ _ _ _ fP.1 hq
                  exact (fP.seq fq).seq
                    (heapFrame_hSetField N _ na _ _ fq.1 hna)
              · cases h
                exact fP
            case h_2 => cases h; exact fP
        · cases h
          exact HeapFrame.refl N σ.heap hN
    · intro N σ na f cref σ' hN hna h
      simp only [walkUnionH, bind, Except.bind, pure, Except.pure,
        hAlloc] at h
      split at h
      case h_1 aa haa =>
        split at h
        case h_1 xs hxs =>
          split at h
          case h_1 => cases h
          case h_2 p hp =>
            cases h
            have f1 := ihL N _ _ _ _ _ hN hp
            have f2 := heapFrame_alloc N p.2.heap (.arr p.1) f1.1
            exact (f1.seq f2).seq
              (heapFrame_hSetField N _ na _ _ f2.1 hna)
        case h_2 => cases h; exact HeapFrame.refl N σ.heap hN
      case h_2 => cases h; exact HeapFrame.refl N σ.heap hN
    · intro N σ pa fs cref σ' hN hpa h
      simp only [walkFieldsH, bind, Except.bind] at h
      split at h
      case h_1 =>
        cases h
        exact HeapFrame.refl N σ.heap hN
      case h_2 k v rest =>
        split at h
        case h_1 => cases h
        case h_2 p hp =>
          have f1 := ihW N _ _ _ _ _ _ hN hp
          have f2 : HeapFrame N σ.heap (hSetField p.2.heap pa k p.1) :=
            f1.seq (heapFrame_hSetField N _ pa k _ f1.1 hpa)
          exact f2.seq (ihF N _ _ _ _ _ f2.1 hpa h)
    · intro N σ xs cref v σ' hN h
      simp only [walkListH, bind, Except.bind] at h
      split at h
      · cases h
        exact HeapFrame.refl N σ.heap hN
      · split at h
        case h_1 => cases h
        case h_2 p hp =>
          split at h
          case h_1 => cases h
          case h_2 q hq =>
            cases h
            have f1 := ihW N _ _ _ _ _ _ hN hp
            exact f1.seq (ihL N _ _ _ _ _ f1.1 hq)

/-- C4: a successful `extract` never mutates the caller's schema — all
heap cells that existed before the call (in particular every node
reachable from the input schema) hold exactly their pre-call contents
afterwards, so the input is deep-equal to its pre-call state; every
substitution lives in cells the call allocated itself. -/
theorem claim_C4 (replacer : String → String) (skipRoot : Bool)
    (fuel : Nat) (σ : HState) (schema : HVal)
    (initialRef : Option String) (v : HVal) (σ' : HState)
    (h : extractH replacer fuel σ schema initialRef skipRoot
      = .ok (v, σ')) :
    σ.heap.length ≤ σ'.heap.length ∧
    ∀ a, a < σ.heap.length → σ'.heap.get? a = σ.heap.get? a :=
  (walkH_frame replacer skipRoot fuel).1 σ.heap.length σ schema
    initialRef true v σ' (le_refl _) h

/-- C4, witness: extracting the self-referential schema laid out in
`demoState` leaves its three cells untouched (the rewrites live in the
fresh cells of `demoFinalState`). -/
theorem claim_C4_witness :
    demoState.heap.length ≤ demoFinalState.heap.length ∧
    ∀ a, a < demoState.heap.length →
      demoFinalState.heap.get? a = demoState.heap.get? a :=
  claim_C4 testReplacer false 40 demoState (.ref 2) (some "init")
    (.ref 3) demoFinalState rfl

/-! ## Claim C9 — array coercion of leaf values -/

/-- C9, counterexample: the claim says every non-array input value is
wrapped into a one-element array, but `CoerceArrayTransformer`'s
before-transform passes `null` (a non-array value) through unchanged
(`if (isArray(val) || val === null) return val`). -/
theorem claim_C9_counterexample :
    coerceArrayBeforeTransformer JVal.null = JVal.null ∧
    coerceArrayBeforeTransformer JVal.null ≠ JVal.arr [JVal.null] := by
  refine ⟨rfl, ?_⟩
  intro h
  exact absurd h (by simp [coerceArrayBeforeTransformer])

/-- C9, amended: the before-transform of the coerce-array transformer
wraps every non-array, non-null input value into a one-element array
containing it, and passes arrays and `null` through unchanged. -/
theorem claim_C9_amended (v : JVal) :
    ((∃ xs, v = JVal.arr xs) ∨ v = JVal.null →
      coerceArrayBeforeTransformer v = v) ∧
    (¬ ((∃ xs, v = JVal.arr xs) ∨ v = JVal.null) →
      coerceArrayBeforeTransformer v = JVal.arr [v]) := by
  cases v <;>
    simp [coerceArrayBeforeTransformer]

/-- C9, witness: the spec's own example — non-array input `"22"` is
wrapped into `["22"]`, while `["22"]` passes through unchanged. -/
theorem claim_C9_amended_witness :
    coerceArrayBeforeTransformer (JVal.str "22") = JVal.arr [JVal.str "22"] ∧
    coerceArrayBeforeTransformer (JVal.arr [JVal.str "22"])
      = JVal.arr [JVal.str "22"] :=
  ⟨(claim_C9_amended (JVal.str "22")).2 (by simp),
   (claim_C9_amended (JVal.arr [JVal.str "22"])).1 (Or.inl ⟨_, rfl⟩)⟩

/-! ## Claim C5 — union nodes compile to a single select program -/

/-- C5: a node that is not a transformable leaf, not an
object-with-properties and not an array-with-items but carries a union
keyword yields exactly one program: the current path extended with a
single `select` step, whose sub-programs are gathered per alternative,
each alternative compiled from a fresh empty sub-path (second
conjunct). -/
theorem claim_C5 :
    (∀ (isLeaf : JVal → Bool) (fuel : Nat) (schema : JVal)
        (currentField : List Step) (alts : List JVal),
      isLeaf schema = false →
      (schema.get "type" == some (JVal.str "object")
        && truthyOpt (schema.get "properties")) = false →
      (schema.get "type" == some (JVal.str "array")
        && truthyOpt (schema.get "items")) = false →
      unionAlts schema = some alts →
      findTransformsInternal isLeaf (fuel + 1) schema currentField
        = [currentField ++ [Step.select (ftList isLeaf fuel alts)]]) ∧
    (∀ (isLeaf : JVal → Bool) (fuel : Nat) (a : JVal) (rest : List JVal),
      ftList isLeaf (fuel + 1) (a :: rest)
        = findTransformsInternal isLeaf fuel a []
            ++ ftList isLeaf fuel rest) := by
  constructor
  · intro isLeaf fuel schema currentField alts h1 h2 h3 h4
    simp [findTransformsInternal, h1, h2, h3, h4]
  · intro isLeaf fuel a rest
    simp [ftList]

/-- C5, witness: a union of a date-time leaf and a plain string,
compiled with the date predicate: one program, ending in one `select`
holding the single program of the matching alternative (compiled from
the fresh empty sub-path). -/
theorem claim_C5_witness :
    findTransformsInternal dateIsTransformableLeaf 6
      (JVal.obj [("oneOf", JVal.arr
        [JVal.obj [("type", JVal.str "string"),
                   ("format", JVal.str "date-time")],
         JVal.obj [("type", JVal.str "string")]])])
      [Step.access "d"]
      = [[Step.access "d",
          Step.select [[Step.this]]]] := by
  have h := (claim_C5).1 dateIsTransformableLeaf 5
    (JVal.obj [("oneOf", JVal.arr
      [JVal.obj [("type", JVal.str "string"),
                 ("format", JVal.str "date-time")],
       JVal.obj [("type", JVal.str "string")]])])
    [Step.access "d"]
    [JVal.obj [("type", JVal.str "string"),
               ("format", JVal.str "date-time")],
     JVal.obj [("type", JVal.str "string")]]
    rfl rfl rfl rfl
  simpa using h

/-! ## Claim C8 — the transform interpreter is total and permissive -/

theorem set_get_self (xs : List JVal) (i : Nat) (h : i < xs.length) :
    xs.set i xs[i] = xs := by
  apply List.ext_getElem
  · simp
  · intro n h1 h2
    rw [List.getElem_set]
    split <;> simp_all

theorem except_map_map {ε α β γ : Type} (e : Except ε α) (f : α → β)
    (g : β → γ) : (e.map f).map g = e.map (fun x => g (f x)) := by
  cases e <;> rfl

theorem except_map_error_iff {ε α β : Type} (e : Except ε α) (f : α → β)
    (err : ε) : e.map f = .error err ↔ e = .error err := by
  cases e <;> simp [Except.map]

/-- The interpreter acting at an array slot `i` is exactly the
value-level `applyCore` acting on element `i`, re-inserted at `i`: an
element update touches only its own slot (mutually with the `select`
case). -/
theorem applyTransform_localize (tr : JVal → JVal) : ∀ fuel : Nat,
    (∀ (steps : List Step) (xs : List JVal) (i : Nat)
        (h : i < xs.length),
      applyTransform tr fuel (.arr xs) (.idx i) steps
        = (applyCore tr fuel steps xs[i]).map
            (fun v => JVal.arr (xs.set i v))) ∧
    (∀ (subs : List (List Step)) (xs : List JVal) (i : Nat)
        (h : i < xs.length),
      applySelect tr fuel (.arr xs) (.idx i) subs
        = (applyCoreSelect tr fuel subs xs[i]).map
            (fun v => JVal.arr (xs.set i v))) := by
  intro fuel
  induction fuel with
  | zero => exact ⟨fun steps xs i h => rfl, fun subs xs i h => rfl⟩
  | succ n ih =>
    obtain ⟨ih1, ih2⟩ := ih
    have hget : ∀ (xs : List JVal) (i : Nat) (h : i < xs.length),
        getKey (.arr xs) (.idx i) = some xs[i] := by
      intro xs i h
      simp [getKey, List.get?_eq_getElem?, List.getElem?_eq_getElem h]
    constructor
    · intro steps xs i h
      match steps with
      | [] => rfl
      | .this :: rest =>
        simp [applyTransform, applyCore, hget xs i h, setKey, Except.map]
      | .access key :: rest =>
        cases hxi : xs[i] with
        | obj cfs =>
          simp [applyTransform, applyCore, hget xs i h, hxi, setKey,
            Except.map]
        | _ =>
          simp only [applyTransform, applyCore, hget xs i h, hxi,
            Except.map]
          rw [← hxi, set_get_self xs i h]
      | .select subs :: rest =>
        simp [applyTransform, applyCore, ih2 subs xs i h]
      | .loop :: rest =>
        cases hxi : xs[i] with
        | arr ys =>
          simp [applyTransform, applyCore, hget xs i h, hxi, setKey,
            except_map_map]
        | _ =>
          simp only [applyTransform, applyCore, hget xs i h, hxi,
            Except.map]
          rw [← hxi, set_get_self xs i h]
    · intro subs xs i h
      match subs with
      | [] =>
        simp [applySelect, applyCoreSelect, Except.map,
          set_get_self xs i h]
      | sub :: more =>
        rw [show applySelect tr (n + 1) (.arr xs) (.idx i) (sub :: more)
            = (match applyTransform tr n (.arr xs) (.idx i) sub with
               | .ok q => applySelect tr n q (.idx i) more
               | .error e => .error e) from rfl]
        rw [ih1 sub xs i h]
        cases hac : applyCore tr n sub xs[i] with
        | error e => simp [applyCoreSelect, hac, Except.map]
        | ok v =>
          have hlen2 : i < (xs.set i v).length := by simpa using h
          have hgi : (xs.set i v)[i] = v := List.getElem_set_self hlen2
          have hstep := ih2 more (xs.set i v) i hlen2
          rw [hgi] at hstep
          simp [Except.map, hstep, applyCoreSelect, hac, List.set_set]

/-- The `loop` iteration in unrolled form: with an in-range index, one
iteration applies the remaining steps to element `i` only, then
continues with index `i + 1` — the elements are visited independently,
in ascending order. -/
theorem applyElems_unroll (tr : JVal → JVal) (fuel count : Nat)
    (xs : List JVal) (i : Nat) (rest : List Step) (h : i < xs.length) :
    applyElems tr (fuel + 1) (count + 1) xs i rest
      = (applyCore tr fuel rest xs[i]).bind
          (fun v => applyElems tr fuel count (xs.set i v) (i + 1) rest) := by
  rw [show applyElems tr (fuel + 1) (count + 1) xs i rest
      = (if i < xs.length then
          match applyTransform tr fuel (.arr xs) (.idx i) rest with
          | .ok v => applyElems tr fuel count (elemsOf v) (i + 1) rest
          | .error e => .error e
        else .ok xs) from rfl]
  rw [if_pos h, (applyTransform_localize tr fuel).1 rest xs i h]
  cases hac : applyCore tr fuel rest xs[i] with
  | error e => rfl
  | ok v => simp [Except.map, Except.bind, elemsOf]

/-- On a well-formed program the interpreter never reaches a throwing
branch (simultaneously for the three mutually recursive
interpreters). -/
theorem applyTransform_no_badProgram (tr : JVal → JVal) : ∀ fuel : Nat,
    (∀ (p : List Step) (parent : JVal) (k : JKey), ProgWF p →
      applyTransform tr fuel parent k p ≠ .error .badProgram) ∧
    (∀ (subs : List (List Step)) (parent : JVal) (k : JKey),
      (∀ sub ∈ subs, ProgWF sub) →
      applySelect tr fuel parent k subs ≠ .error .badProgram) ∧
    (∀ (count : Nat) (xs : List JVal) (i : Nat) (rest : List Step),
      ProgWF rest →
      applyElems tr fuel count xs i rest ≠ .error .badProgram) := by
  intro fuel
  induction fuel with
  | zero =>
    refine ⟨?_, ?_, ?_⟩ <;> intros <;>
      simp [applyTransform, applySelect, applyElems]
  | succ n ih =>
    obtain ⟨ih1, ih2, ih3⟩ := ih
    refine ⟨?_, ?_, ?_⟩
    · intro p parent k hwf
      cases hwf with
      | this rest => cases parent <;> simp [applyTransform] <;> split <;> simp
      | access key rest hrest =>
        simp only [applyTransform]
        split
        case h_1 cfs heq =>
          intro hcon
          rw [except_map_error_iff] at hcon
          exact ih1 _ _ _ hrest hcon
        case h_2 => simp
      | loop rest hrest =>
        simp only [applyTransform]
        split
        case h_1 xs heq =>
          intro hcon
          rw [except_map_error_iff] at hcon
          exact ih3 _ _ _ _ hrest hcon
        case h_2 => simp
      | select subs rest hsubs =>
        simp only [applyTransform]
        exact ih2 _ _ _ hsubs
    · intro subs parent k hsubs
      match subs with
      | [] => simp [applySelect]
      | sub :: more =>
        simp only [applySelect]
        split
        case h_1 q hq =>
          exact ih2 _ _ _ (fun s hs => hsubs s (List.mem_cons_of_mem _ hs))
        case h_2 e hq =>
          intro hcon
          cases hcon
          exact ih1 _ _ _ (hsubs sub (List.mem_cons_self sub more)) hq
    · intro count xs i rest hrest
      match count with
      | 0 => simp [applyElems]
      | count + 1 =>
        simp only [applyElems]
        split
        · split
          case h_1 v hv => exact ih3 _ _ _ _ hrest
          case h_2 e hv =>
            intro hcon
            cases hcon
            exact ih1 _ _ _ hrest hv
        · simp

/-- Appending a well-formed program to descending steps stays
well-formed. -/
theorem ProgWF_append (cur t : List Step)
    (hcur : ∀ s ∈ cur, stepDescends s = true) (ht : ProgWF t) :
    ProgWF (cur ++ t) := by
  induction cur with
  | nil => simpa
  | cons s rest ih =>
    have hs := hcur s (List.mem_cons_self s rest)
    have hr : ∀ x ∈ rest, stepDescends x = true :=
      fun x hx => hcur x (List.mem_cons_of_mem _ hx)
    cases s with
    | access k => exact ProgWF.access k _ (ih hr)
    | loop => exact ProgWF.loop _ (ih hr)
    | this => simp [stepDescends] at hs
    | select subs => simp [stepDescends] at hs

/-- Every program the transform compiler produces is well-formed. -/
theorem ft_WF (isLeaf : JVal → Bool) : ∀ fuel : Nat,
    (∀ schema cur, (∀ s ∈ cur, stepDescends s = true) →
      ∀ p ∈ findTransformsInternal isLeaf fuel schema cur, ProgWF p) ∧
    (∀ fs cur, (∀ s ∈ cur, stepDescends s = true) →
      ∀ p ∈ ftFields isLeaf fuel fs cur, ProgWF p) ∧
    (∀ alts p, p ∈ ftList isLeaf fuel alts → ProgWF p) := by
  intro fuel
  induction fuel with
  | zero =>
    refine ⟨?_, ?_, ?_⟩ <;> intros <;>
      simp_all [findTransformsInternal, ftFields, ftList]
  | succ n ih =>
    obtain ⟨ih1, ih2, ih3⟩ := ih
    refine ⟨?_, ?_, ?_⟩
    · intro schema cur hcur p hp
      simp only [findTransformsInternal] at hp
      split at hp
      · simp only [List.mem_singleton] at hp
        exact hp ▸ ProgWF_append cur _ hcur (ProgWF.this [])
      · split at hp
        · exact ih2 _ _ hcur _ hp
        · split at hp
          · refine ih1 _ _ ?_ _ hp
            intro s hs
            rcases List.mem_append.mp hs with hs | hs
            · exact hcur s hs
            · simp only [List.mem_singleton] at hs
              simp [hs, stepDescends]
          · split at hp
            · simp only [List.mem_singleton] at hp
              exact hp ▸ ProgWF_append cur _ hcur
                (ProgWF.select _ [] (fun sub hsub => ih3 _ _ hsub))
            · simp at hp
    · intro fs cur hcur p hp
      simp only [ftFields] at hp
      split at hp
      · simp at hp
      · rcases List.mem_append.mp hp with hp | hp
        · refine ih1 _ _ ?_ _ hp
          intro s hs
          rcases List.mem_append.mp hs with hs | hs
          · exact hcur s hs
          · simp only [List.mem_singleton] at hs
            simp [hs, stepDescends]
        · exact ih2 _ _ hcur _ hp
    · intro alts p hp
      simp only [ftList] at hp
      split at hp
      · simp at hp
      · rcases List.mem_append.mp hp with hp | hp
        · exact ih1 _ _ (by simp) _ hp
        · exact ih3 _ _ hp

/-- C8: the interpreter is total and permissive — an absent key at a
`this` step (first conjunct), a non-plain-object value at an `access`
step (second conjunct) and a non-array value at a `loop` step (third
conjunct) are silent no-ops returning the data unchanged; a `loop`
over an array visits element indices in ascending order, each
iteration rewriting only its own element before moving to the next
(fourth conjunct); and on every program produced by the compiler the
throwing branches (program overrun / unknown step) are unreachable,
for every runtime value (fifth conjunct). -/
theorem claim_C8 :
    (∀ (tr : JVal → JVal) (fuel : Nat) (parent : JVal) (k : JKey)
        (rest : List Step),
      getKey parent k = none →
      applyTransform tr (fuel + 1) parent k (Step.this :: rest)
        = .ok parent) ∧
    (∀ (tr : JVal → JVal) (fuel : Nat) (parent : JVal) (k : JKey)
        (key : String) (rest : List Step),
      isPlainObjectOpt (getKey parent k) = false →
      applyTransform tr (fuel + 1) parent k (Step.access key :: rest)
        = .ok parent) ∧
    (∀ (tr : JVal → JVal) (fuel : Nat) (parent : JVal) (k : JKey)
        (rest : List Step),
      isArrayOpt (getKey parent k) = false →
      applyTransform tr (fuel + 1) parent k (Step.loop :: rest)
        = .ok parent) ∧
    (∀ (tr : JVal → JVal) (fuel count : Nat) (xs : List JVal) (i : Nat)
        (rest : List Step) (h : i < xs.length),
      applyElems tr (fuel + 1) (count + 1) xs i rest
        = (applyCore tr fuel rest xs[i]).bind
            (fun v => applyElems tr fuel count (xs.set i v) (i + 1)
              rest)) ∧
    (∀ (isLeaf : JVal → Bool) (ffuel : Nat) (schema : JVal)
        (p : List Step),
      p ∈ findTransforms isLeaf ffuel schema →
      ∀ (tr : JVal → JVal) (fuel : Nat) (parent : JVal) (k : JKey),
        applyTransform tr fuel parent k p ≠ .error .badProgram) := by
  refine ⟨?_, ?_, ?_, ?_, ?_⟩
  · intro tr fuel parent k rest h
    cases parent <;> simp [applyTransform, h]
  · intro tr fuel parent k key rest h
    simp only [applyTransform]
    split
    case h_1 cfs heq => rw [heq] at h; simp [isPlainObjectOpt] at h
    case h_2 => rfl
  · intro tr fuel parent k rest h
    simp only [applyTransform]
    split
    case h_1 xs heq => rw [heq] at h; simp [isArrayOpt] at h
    case h_2 => rfl
  · intro tr fuel count xs i rest h
    exact applyElems_unroll tr fuel count xs i rest h
  · intro isLeaf ffuel schema p hp tr fuel parent k
    exact (applyTransform_no_badProgram tr fuel).1 p parent k
      ((ft_WF isLeaf ffuel).1 schema [] (by simp) p hp)

/-- C8, witness: each part at concrete inputs — absent key, non-object
at `access`, non-array at `loop`, one unrolled loop iteration, and the
date program of a concrete schema never hitting a throwing branch. -/
theorem claim_C8_witness :
    applyTransform dateBeforeTransformer 5
      (.obj [("x", .num 1)]) (.str "y") [Step.this]
      = .ok (.obj [("x", .num 1)]) ∧
    applyTransform dateBeforeTransformer 5
      (.obj [("x", .num 1)]) (.str "x") [Step.access "d", Step.this]
      = .ok (.obj [("x", .num 1)]) ∧
    applyTransform dateBeforeTransformer 5
      (.obj [("x", .num 1)]) (.str "x") [Step.loop, Step.this]
      = .ok (.obj [("x", .num 1)]) ∧
    applyElems dateBeforeTransformer 5 1 [JVal.date "D"] 0 [Step.this]
      = (applyCore dateBeforeTransformer 4 [Step.this]
          (JVal.date "D")).bind
          (fun v => applyElems dateBeforeTransformer 4 0
            ([JVal.date "D"].set 0 v) 1 [Step.this]) ∧
    applyTransform dateBeforeTransformer 3
      (.obj [("data", .num 7)]) (.str "data")
      [Step.access "date", Step.this] ≠ .error .badProgram :=
  ⟨(claim_C8).1 dateBeforeTransformer 4 (.obj [("x", .num 1)])
      (.str "y") [Step.this] rfl,
   (claim_C8).2.1 dateBeforeTransformer 4 (.obj [("x", .num 1)])
      (.str "x") "d" [Step.this] rfl,
   (claim_C8).2.2.1 dateBeforeTransformer 4 (.obj [("x", .num 1)])
      (.str "x") [Step.this] rfl,
   (claim_C8).2.2.2.1 dateBeforeTransformer 4 0 [JVal.date "D"] 0
      [Step.this] (by decide),
   (claim_C8).2.2.2.2 dateIsTransformableLeaf 50 dateFieldSchema
      [Step.access "date", Step.this]
      (by
        rw [show findTransforms dateIsTransformableLeaf 50 dateFieldSchema
            = [[Step.access "date", Step.this]] from rfl]
        exact List.mem_singleton.mpr rfl)
      dateBeforeTransformer 3 (.obj [("data", .num 7)]) (.str "data")⟩

/-! ## Claim C6 — the `UnsupportedLeafShape` check -/

/-- Every program discovered by the transform compiler strictly extends
the path it was given: in particular no discovered program is empty. -/
theorem ft_programs_longer (isLeaf : JVal → Bool) : ∀ fuel : Nat,
    (∀ schema cur p, p ∈ findTransformsInternal isLeaf fuel schema cur →
      cur.length < p.length) ∧
    (∀ fs cur p, p ∈ ftFields isLeaf fuel fs cur →
      cur.length < p.length) ∧
    (∀ alts p, p ∈ ftList isLeaf fuel alts → 0 < p.length) := by
  intro fuel
  induction fuel with
  | zero =>
    refine ⟨?_, ?_, ?_⟩ <;> intros <;>
      simp_all [findTransformsInternal, ftFields, ftList]
  | succ n ih =>
    obtain ⟨ih1, ih2, ih3⟩ := ih
    refine ⟨?_, ?_, ?_⟩
    · intro schema cur p hp
      simp only [findTransformsInternal] at hp
      split at hp
      · simp_all
      · split at hp
        · exact ih2 _ _ _ hp
        · split at hp
          · have := ih1 _ _ _ hp
            simp at this
            omega
          · split at hp
            · simp at hp
              simp [hp]
            · simp at hp
    · intro fs cur p hp
      simp only [ftFields] at hp
      split at hp
      · simp at hp
      · rw [List.mem_append] at hp
        rcases hp with hp | hp
        · have := ih1 _ _ _ hp
          simp at this
          omega
        · exact ih2 _ _ _ hp
    · intro alts p hp
      simp only [ftList] at hp
      split at hp
      · simp at hp
      · rw [List.mem_append] at hp
        rcases hp with hp | hp
        · simpa using ih1 _ _ _ hp
        · exact ih3 _ _ hp

/-- C6, counterexample: on the outer-coercible array-of-arrays schema
(the repository's own `known issue with nested arrays` test), both the
transform-discovery phase and the whole compile succeed — no
`UnsupportedLeafShape` error is raised at compile time (in the test,
the mismatch surfaces as a validation error at use time). -/
theorem claim_C6_counterexample :
    loadTransforms 60 knownIssueSchema
      = .ok [[], [], [[Step.access "values", Step.this]]] ∧
    (AjvValidator.compile 60 defaultVm knownIssueSchema none).isOk = true :=
  ⟨rfl, rfl⟩

/-- C6, amended: `loadTransforms` raises the `Unsupported transforms
found` error exactly when a discovered program is empty, and
`findTransforms` never produces an empty program, so the check never
fires: transform discovery succeeds for every schema, and the
unsupported-shape example compiles successfully instead of failing at
schema-compile time. -/
theorem claim_C6_amended : ∀ (fuel : Nat) (schema : JVal),
    (loadTransforms fuel schema).isOk = true := by
  intro fuel schema
  have key : ∀ isLeaf : JVal → Bool,
      loadTransformsFor isLeaf fuel schema
        = .ok (findTransforms isLeaf fuel schema) := by
    intro isLeaf
    have hany : (findTransforms isLeaf fuel schema).any
        (fun t => t.isEmpty) = false := by
      rw [List.any_eq_false]
      intro p hp
      have hlen := (ft_programs_longer isLeaf fuel).1 _ _ _ hp
      cases p
      · simp at hlen
      · simp
    simp [loadTransformsFor, hany]
  simp [loadTransforms, key, bind, Except.bind, pure, Except.pure,
    Except.isOk, Except.toBool]

/-! ## Claim C7 — unknown validator mode -/

/-- C7, counterexample: `compile` consults the `compiledFns` cache
before looking the mode up, so once a schema has been compiled (under
the default mode), compiling the same schema with a mode that does not
exist returns the cached validation function instead of failing. -/
theorem claim_C7_counterexample :
    (defaultVm.modes.contains "bogus" = false) ∧
    (match AjvValidator.compile 20 defaultVm tinySchema none with
     | .ok (_, vm₁) =>
       (AjvValidator.compile 20 vm₁ tinySchema (some "bogus")).isOk
     | .error _ => false) = true :=
  ⟨rfl, rfl⟩

/-- C7, amended: when no compiled function for the schema is cached,
`compile(schema, mode)` with a mode that is not configured fails with
the `Validator mode ... doesn't exist` error; with a cache hit the
cached function is returned and the mode is never checked. -/
theorem claim_C7_amended (fuel : Nat) (vm : AjvValidatorState)
    (schema : JVal) (mode : Option String)
    (hcache : lookupCompiled vm.compiledFns schema = none)
    (hmode : vm.modes.contains (mode.getD vm.defaultMode) = false) :
    AjvValidator.compile fuel vm schema mode
      = .error (.validatorModeNotFound (mode.getD vm.defaultMode)) := by
  have hmem : ¬ (mode.getD vm.defaultMode ∈ vm.modes) := by
    simpa using hmode
  simp [AjvValidator.compile, hcache, hmem]

/-! ## Claim C10 — no rollback of before-transforms on validation
failure -/

/-- C10: when the before-transforms rewrite `params` to `d₁` and the
structural (Ajv) validation of `d₁` fails, the compiled validation
function raises the validation error with the caller's data left in
its transformed state `d₁` — the transforms run before validation and
nothing restores the original value on the error path. -/
theorem claim_C10 (isoValid : String → Bool) (ajvValid : JVal → Bool)
    (fuel : Nat) (schema : JVal) (data d₁ : JVal)
    (hb : applyBeforeTransforms fuel schema data = .ok d₁)
    (hv : ajvValid d₁ = false) :
    validateFnRun isoValid ajvValid fuel schema false data
      = (d₁, .error .validationError) := by
  simp [validateFnRun, hb, hv]

/-- C10, witness: a date-property schema and an input holding a `Date`
instance: the before-transform rewrites the date to its ISO string
(so the data really is mutated), and a failing validation surfaces
after that mutation, without rollback. -/
theorem claim_C10_witness :
    applyBeforeTransforms 50 dateFieldSchema
      (.obj [("date", .date "2021-05-06T08:33:20.377Z")])
      = .ok (.obj [("date", .str "2021-05-06T08:33:20.377Z")]) ∧
    (JVal.obj [("date", .str "2021-05-06T08:33:20.377Z")]
      ≠ .obj [("date", .date "2021-05-06T08:33:20.377Z")]) ∧
    validateFnRun (fun _ => true) (fun _ => false) 50 dateFieldSchema
      false (.obj [("date", .date "2021-05-06T08:33:20.377Z")])
      = (.obj [("date", .str "2021-05-06T08:33:20.377Z")],
         .error .validationError) :=
  ⟨rfl, ne_of_beq_false rfl,
   claim_C10 (fun _ => true) (fun _ => false) 50 dateFieldSchema
     (.obj [("date", .date "2021-05-06T08:33:20.377Z")])
     (.obj [("date", .str "2021-05-06T08:33:20.377Z")]) rfl rfl⟩

/-- C7, witness: a fresh validator (empty cache) and the unknown mode
`bogus`. -/
theorem claim_C7_amended_witness :
    AjvValidator.compile 20 defaultVm tinySchema (some "bogus")
      = .error (.validatorModeNotFound "bogus") :=
  claim_C7_amended 20 defaultVm tinySchema (some "bogus") rfl rfl

/-! ## Claim C2 — self-reference resolution -/

/-- C2: a raw self-reference (`$ref: "#"`) is rewritten to a reference
whose address is the current enclosing identifier (first conjunct) and
is a fatal error when there is no truthy enclosing identifier (second
conjunct); the enclosing identifier is the strategy-replaced identifier
of the nearest named ancestor, or the supplied initial identifier at
the root (third and fourth conjuncts: the spec's `Node` example
registers `next.$ref = my-test/Node`, and in the multi-level schema the
inner self-reference resolves to the nearest named ancestor `SchemaB`,
not to the initial identifier). -/
theorem claim_C2 :
    (∀ (replacer : String → String) (skipRoot : Bool) (fuel : Nat)
        (st : ExtractState) (curr : JVal) (r : String) (root : Bool),
      curr.get "$ref" = some (JVal.str "#") → r ≠ "" →
      walk replacer skipRoot (fuel + 1) st curr (some r) root
        = .ok (.obj [("$ref", .str r)], st)) ∧
    (∀ (replacer : String → String) (skipRoot : Bool) (fuel : Nat)
        (st : ExtractState) (curr : JVal) (cref : Option String)
        (root : Bool),
      curr.get "$ref" = some (JVal.str "#") → strTruthy cref = false →
      walk replacer skipRoot (fuel + 1) st curr cref root
        = .error .unresolvableSelfRef) ∧
    ((extract testReplacer 20 emptyExtractState nodeSelfRefSchema
        (some "Node") false).map (fun p => (p.1, p.2.refs "Node"))
      = .ok (.obj [("$ref", .str "my-test/Node")],
          some (some (.obj [("type", .str "object"),
            ("properties", .obj
              [("next", .obj [("$ref", .str "my-test/Node")])])])))) ∧
    ((extract testReplacer 30 emptyExtractState multiLevelSchema
        (some "my-test/MySchema") false).map (fun p => p.2.refs "SchemaB")
      = .ok (some (some (.obj [("type", .str "object"),
          ("additionalProperties", .bool false), ("required", .arr []),
          ("properties", .obj
            [("b", .obj [("$ref", .str "my-test/SchemaB")])])])))) := by
  refine ⟨?_, ?_, rfl, rfl⟩
  · intro replacer skipRoot fuel st curr r root h hr
    simp [walk, h, truthyOpt, JVal.truthy, strTruthy, hr]
    intro habs
    exact absurd habs (by decide)
  · intro replacer skipRoot fuel st curr cref root h hcref
    simp [walk, h, truthyOpt, JVal.truthy, hcref]
    decide

/-- C2, witness: the resolving and the failing case at concrete inputs
(the failing case is the `should throw if self-ref is not contained in
a schema` test, which passes the empty string as initial identifier). -/
theorem claim_C2_witness :
    walk testReplacer false 5 emptyExtractState
      (.obj [("$ref", .str "#")]) (some "my-test/MySchema") false
      = .ok (.obj [("$ref", .str "my-test/MySchema")], emptyExtractState) ∧
    walk testReplacer false 5 emptyExtractState
      (.obj [("$ref", .str "#")]) (some "") false
      = .error .unresolvableSelfRef :=
  ⟨(claim_C2).1 testReplacer false 4 emptyExtractState
      (.obj [("$ref", .str "#")]) "my-test/MySchema" false rfl
      (by decide),
   (claim_C2).2.1 testReplacer false 4 emptyExtractState
      (.obj [("$ref", .str "#")]) (some "") false rfl rfl⟩

/-! ## Claim C3 — nullable named nodes -/

/-- A lookup for an omitted key always fails. -/
theorem lookup_filter_notMem {α : Type} (fs : List (String × α))
    (ks : List String) (k : String) (hk : k ∈ ks) :
    (fs.filter (fun kv => !ks.contains kv.1)).lookup k = none := by
  rw [List.lookup_eq_none_iff]
  intro a ha
  have h2 := (List.mem_filter.mp ha).2
  rw [Bool.not_eq_true'] at h2
  have h3 : a.1 ∉ ks := fun hmem => by
    simp only [List.contains, List.elem_iff.mpr hmem] at h2
    cases h2
  simp only [bne_iff_ne, ne_eq]
  intro he
  exact h3 (he ▸ hk)

/-- `omit` removes the listed keys. -/
theorem get_omitKeys (v : JVal) (ks : List String) (k : String)
    (hk : k ∈ ks) : (v.omitKeys ks).get k = none := by
  cases v
  case obj fs => exact lookup_filter_notMem fs ks k hk
  all_goals rfl

/-- C3: a named nullable node (when the root is not being substituted
away: `skipRoot = false`, the `extract` default) is replaced by the
union `{oneOf: [{$ref: <replaced address>}, {type: "null"}]}` instead
of a bare reference — both on fresh registration (first conjunct) and
when the identifier is already registered with equal content (second
conjunct) — while the content that gets registered is the walk of the
node with the identifier and nullable keywords omitted, which removes
both keywords from it (third conjunct); fourth conjunct: the
repository's nullable extraction test, end to end. -/
theorem claim_C3 :
    (∀ (replacer : String → String) (fuel : Nat) (st : ExtractState)
        (curr : JVal) (cref : Option String) (root : Bool) (name : String)
        (N : JVal) (st₂ : ExtractState),
      truthyOpt (curr.get "$ref") = false →
      refNameOf curr = some name →
      truthyOpt (curr.get "nullable") = true →
      st.refs name = none →
      walk replacer false fuel (st.setRef name none)
          (curr.omitKeys [SCHEMA_REF_NAME, "nullable"])
          (some (replacer name)) false = .ok (N, st₂) →
      st₂.refs name = some none →
      walk replacer false (fuel + 1) st curr cref root
        = .ok (.obj [("oneOf", .arr
              [.obj [("$ref", .str (replacer name))],
               .obj [("type", .str "null")]])],
            { refs := fun k => if k == name then some (some N)
                               else st₂.refs k,
              newRefCalls := st₂.newRefCalls ++ [(name, N)] })) ∧
    (∀ (replacer : String → String) (fuel : Nat) (st : ExtractState)
        (curr : JVal) (cref : Option String) (root : Bool) (name : String)
        (N R : JVal) (st₂ : ExtractState),
      truthyOpt (curr.get "$ref") = false →
      refNameOf curr = some name →
      truthyOpt (curr.get "nullable") = true →
      st.refs name = some (some R) →
      walk replacer false fuel st
          (curr.omitKeys [SCHEMA_REF_NAME, "nullable"])
          (some (replacer name)) false = .ok (N, st₂) →
      st₂.refs name = some (some R) →
      JVal.beq N R = true →
      walk replacer false (fuel + 1) st curr cref root
        = .ok (.obj [("oneOf", .arr
              [.obj [("$ref", .str (replacer name))],
               .obj [("type", .str "null")]])], st₂)) ∧
    (∀ curr : JVal,
      (curr.omitKeys [SCHEMA_REF_NAME, "nullable"]).get SCHEMA_REF_NAME
          = none ∧
      (curr.omitKeys [SCHEMA_REF_NAME, "nullable"]).get "nullable"
          = none) ∧
    ((extract testReplacer 20 emptyExtractState nullableNamedSchema
        (some "my-test/MySchema") false).map
          (fun p => (p.1, p.2.refs "MyString"))
      = .ok (.obj [("type", .str "object"),
            ("additionalProperties", .bool false), ("required", .arr []),
            ("properties", .obj [("a", .obj [("oneOf", .arr
              [.obj [("$ref", .str "my-test/MyString")],
               .obj [("type", .str "null")]])])])],
          some (some (.obj [("type", .str "string"),
                            ("minLength", .num 5)])))) := by
  refine ⟨?_, ?_, ?_, rfl⟩
  · intro replacer fuel st curr cref root name N st₂
      href hname hnul hst hin hreg
    simp [walk, href, hname, hst, hin, hreg, refResult, hnul]
  · intro replacer fuel st curr cref root name N R st₂
      href hname hnul hst hin hreg heq
    simp [walk, href, hname, hst, hin, hreg, heq, refResult, hnul]
  · intro curr
    exact ⟨get_omitKeys curr _ _ (by simp),
           get_omitKeys curr _ _ (by simp)⟩

/-- C3, witness: the nullable named node of the repository's nullable
extraction test, processed as a fresh registration. -/
theorem claim_C3_witness :
    walk testReplacer false 6 emptyExtractState
      (.obj [("type", .str "string"), (SCHEMA_REF_NAME, .str "MyString"),
             ("minLength", .num 5), ("nullable", .bool true)])
      (some "my-test/MySchema") false
      = .ok (.obj [("oneOf", .arr
            [.obj [("$ref", .str "my-test/MyString")],
             .obj [("type", .str "null")]])],
          { refs := fun k => if k == "MyString"
              then some (some (.obj [("type", .str "string"),
                                     ("minLength", .num 5)]))
              else (emptyExtractState.setRef "MyString" none).refs k,
            newRefCalls := [("MyString",
              .obj [("type", .str "string"), ("minLength", .num 5)])] }) :=
  (claim_C3).1 testReplacer 5 emptyExtractState
    (.obj [("type", .str "string"), (SCHEMA_REF_NAME, .str "MyString"),
           ("minLength", .num 5), ("nullable", .bool true)])
    (some "my-test/MySchema") false "MyString"
    (.obj [("type", .str "string"), ("minLength", .num 5)])
    (emptyExtractState.setRef "MyString" none)
    rfl rfl rfl rfl rfl rfl

end MolEss
